import Mathlib

/-!
The memcached-operator router: consistent-hash ring, transition planner, cluster fan-out

A shallow embedding of `router/ring.go`, `router/memcached.go` and the parts of
`client/client.go` they call, followed by theorems about them.

Conventions of the embedding

* Go `[]byte` is `List Nat` (each element read modulo 256 where it matters),
  Go `uint32` is `Nat` kept below `2^32`, Go `int` is `Int`.
* The request buffer of `serve` and `parseRequest`, whose capacity can exceed
  its length, is a `ByteSlice`: index expressions are bounded by the length,
  slice expressions by the capacity.
* `*Memcached` is an address (`Nat`) into a `Heap`, a list of `Memcached`
  records; `nil` is `none`.
* A function that can return an `error` or panic returns `Except Fault _`.
-/

set_option linter.dupNamespace false

namespace Router

/-! ## Outcomes -/

/-- What a call can end with other than a normal result: the error value
`ErrConflictName` of `ring.go`, or one of the run-time panics. -/
inductive Fault where
  | ErrConflictName
  | panicIndexOutOfRange
  | panicNilDereference
  | panicUnreachable
  deriving DecidableEq, Repr

/-- Equality of outcomes is decidable, so that concrete runs can be evaluated. -/
instance decEqExcept {ε α : Type} [DecidableEq ε] [DecidableEq α] : DecidableEq (Except ε α)
  | .ok a, .ok b =>
    if h : a = b then isTrue (by rw [h]) else isFalse (fun h' => h (by cases h'; rfl))
  | .error e, .error f =>
    if h : e = f then isTrue (by rw [h]) else isFalse (fun h' => h (by cases h'; rfl))
  | .ok _, .error _ => isFalse (fun h => by cases h)
  | .error _, .ok _ => isFalse (fun h => by cases h)

/-! ## `hash/crc32` (Go standard library) -/

/-- One bit of the reflected CRC-32 division by the IEEE polynomial `0xedb88320`,
as in `simplePopulateTable` of `hash/crc32`. -/
def crcBit (crc : Nat) : Nat :=
  if crc % 2 = 1 then (crc >>> 1) ^^^ 0xedb88320 else crc >>> 1

/-- Entry `i` of the IEEE table of `hash/crc32`: eight bit steps from `i`. -/
def crcTable (i : Nat) : Nat :=
  crcBit (crcBit (crcBit (crcBit (crcBit (crcBit (crcBit (crcBit i)))))))

/-- The body of `simpleUpdate`: `crc = tab[byte(crc)^v] ^ (crc >> 8)`. -/
def crcUpdate (crc v : Nat) : Nat :=
  crcTable ((crc ^^^ (v % 256)) % 256) ^^^ (crc >>> 8)

/-- `crc32.ChecksumIEEE(data)`. -/
def ChecksumIEEE (data : List Nat) : Nat :=
  (data.foldl crcUpdate 0xffffffff) ^^^ 0xffffffff

/-- The bytes of a Go string. -/
def bytesOf (s : String) : List Nat :=
  s.toUTF8.data.toList.map UInt8.toNat

/-! ## Data model (`router/memcached.go`, `router/ring.go`) -/

/-- `type Status int` with its three constants. -/
inductive Status where
  | StatusNormal
  | StatusAdding
  | StatusDeleting
  deriving DecidableEq, Repr

/-- `type Phase int` with its three constants. -/
inductive Phase where
  | PhaseDeleteOnly
  | PhaseWriteOnly
  | PhaseReadWrite
  deriving DecidableEq, Repr

/-- `type Mode int` with its three constants. -/
inductive Mode where
  | ModeDeleteOnly
  | ModeWriteOnly
  | ModeReadWrite
  deriving DecidableEq, Repr

open Status Phase Mode

/-- `type Memcached struct`. `Client` is the handle of the backend client
(`none` for a nil `*client.Client`), `next` the address of the sibling. -/
structure Memcached where
  Name : String
  Host : String
  Port : Int
  Status : Status
  Phase : Phase
  Mode : Mode
  Client : Option Nat
  hash : Nat
  next : Option Nat
  deriving DecidableEq, Repr

/-- The objects of type `Memcached` that exist; an address is an index. -/
abbrev Heap := List Memcached

/-- `type node struct`: `Server` is the address of the backend. -/
structure node where
  Hash : Nat
  Server : Nat
  deriving DecidableEq, Repr

/-- `type Ring struct`. -/
structure Ring where
  Servers : List Nat
  Table : List node
  deriving DecidableEq, Repr

/-- Indexing a Go slice with an `int`: panics outside `0 ≤ i < len`. -/
def index {α : Type} (xs : List α) (i : Int) : Except Fault α :=
  if i < 0 then .error .panicIndexOutOfRange
  else
    match xs[i.toNat]? with
    | some x => .ok x
    | none => .error .panicIndexOutOfRange

/-! ## `Ring.Pick` -/

/-- The `for end-start > 0` loop of `Ring.Pick`. -/
def pickLoop (table : List node) (h : Nat) (start end' : Int) : Except Fault Int :=
  if 0 < end' - start then
    let i := start + (end' - start) / 2
    match index table i with
    | .error f => .error f
    | .ok n =>
      if h < n.Hash then pickLoop table h start i
      else pickLoop table h (i + 1) end'
  else .ok start
termination_by (end' - start).toNat
decreasing_by
  all_goals simp_wf
  all_goals omega

/-- `func (r *Ring) Pick(key []byte) *Memcached`; the result is the address of
the picked backend. -/
def Ring.Pick (r : Ring) (key : List Nat) : Except Fault Nat := do
  let h := ChecksumIEEE key
  let start ← pickLoop r.Table h 0 ((r.Table.length : Int) - 1)
  -- `start == len(r.Table)-1 && r.Table[start].Hash <= h`
  let wrap ←
    if start = (r.Table.length : Int) - 1 then do
      let n ← index r.Table start
      pure (decide (n.Hash ≤ h))
    else pure false
  let start := if wrap then 0 else start
  let n ← index r.Table start
  pure n.Server

/-! ## `NewRing` -/

/-- The inner loop of `NewRing`: the 100 virtual nodes of the backend at
address `server`, with hash `CRC32-IEEE(fmt.Sprintf("%s-%d", name, i))`. -/
def vnodes (name : String) (server : Nat) : List node :=
  (List.range 100).map fun i =>
    { Hash := ChecksumIEEE (bytesOf (name ++ "-" ++ toString i)), Server := server }

/-- The first loop of `NewRing`: `c` is the set of names seen so far, `t` the
table built so far, `a` the address of the next backend of the slice. -/
def collect : List String → List node → Nat → List Memcached → Except Fault (List node)
  | _, t, _, [] => .ok t
  | c, t, a, v :: rest =>
    if v.Name ∈ c then .error .ErrConflictName
    else collect (v.Name :: c) (t ++ vnodes v.Name a) (a + 1) rest

/-- The contract of `sort.Slice(t, func(i, j) bool { return t[i].Hash < t[j].Hash })`:
some rearrangement of the slice in which no later element is less than an
earlier one. The library does not promise stability, so the order among equal
hashes is left to the sorter. -/
structure SliceSort where
  run : List node → List node
  perm : ∀ t, (run t).Perm t
  sorted : ∀ t, (run t).Pairwise (fun a b => a.Hash ≤ b.Hash)

/-- Insertion by hash, used by `insertionSlice`. -/
def insertByHash (a : node) : List node → List node
  | [] => [a]
  | b :: l => if a.Hash ≤ b.Hash then a :: b :: l else b :: insertByHash a l

/-- Insertion sort by hash. -/
def sortByHash : List node → List node
  | [] => []
  | a :: l => insertByHash a (sortByHash l)

/-- `*p` for a pointer into the heap. -/
def deref (heap : Heap) (p : Nat) : Except Fault Memcached :=
  match heap[p]? with
  | some s => .ok s
  | none => .error .panicNilDereference

/-- `p.Mode = mode`. -/
def setMode (heap : Heap) (p : Nat) (mode : Mode) : Except Fault Heap := do
  let s ← deref heap p
  pure (heap.set p { s with Mode := mode })

/-- `p.next = nx`. -/
def setNext (heap : Heap) (p : Nat) (nx : Option Nat) : Except Fault Heap := do
  let s ← deref heap p
  pure (heap.set p { s with next := nx })

/-- `func (m *Memcached) Dup() *Memcached`: a new object holding a copy of `*m`. -/
def Dup (heap : Heap) (m : Nat) : Except Fault (Nat × Heap) := do
  let s ← deref heap m
  pure (heap.length, heap ++ [s])

/-- The statements `v.Server.next = t[i+1].Server.Dup(); v.Server.next.Mode = mode`. -/
def linkDup (t : List node) (i : Nat) (v : node) (heap : Heap) (mode : Mode) :
    Except Fault Heap := do
  let nx ← index t ((i : Int) + 1)
  let (c, heap) ← Dup heap nx.Server
  let heap ← setNext heap v.Server (some c)
  let s ← deref heap v.Server
  match s.next with
  | none => .error .panicNilDereference
  | some d => setMode heap d mode

/-- The statement `v.Server.next = t[i+1].Server`. -/
def linkNext (t : List node) (i : Nat) (v : node) (heap : Heap) : Except Fault Heap := do
  let nx ← index t ((i : Int) + 1)
  setNext heap v.Server (some nx.Server)

/-- The body of the second loop of `NewRing` for slot `i` with entry `v`. -/
def assign (t : List node) (i : Nat) (v : node) (heap : Heap) : Except Fault Heap := do
  let s ← deref heap v.Server
  match s.Status with
  | StatusAdding =>
    match s.Phase with
    | PhaseDeleteOnly => do
      let heap ← setMode heap v.Server ModeDeleteOnly
      linkNext t i v heap
    | PhaseWriteOnly => do
      let heap ← setMode heap v.Server ModeWriteOnly
      linkNext t i v heap
    | PhaseReadWrite => do
      let heap ← setMode heap v.Server ModeReadWrite
      linkDup t i v heap ModeWriteOnly
  | StatusDeleting =>
    match s.Phase with
    | PhaseDeleteOnly => do
      let heap ← setMode heap v.Server ModeReadWrite
      linkDup t i v heap ModeDeleteOnly
    | PhaseWriteOnly => do
      let heap ← setMode heap v.Server ModeReadWrite
      linkDup t i v heap ModeWriteOnly
    | PhaseReadWrite => do
      let heap ← setMode heap v.Server ModeWriteOnly
      linkDup t i v heap ModeReadWrite
  | StatusNormal => setMode heap v.Server ModeReadWrite

/-- The second loop of `NewRing`, `for i, v := range t`, from slot `i` on;
`rest` is `t[i:]`. -/
def assignModes (t : List node) : Nat → List node → Heap → Except Fault Heap
  | _, [], heap => .ok heap
  | i, v :: rest, heap =>
    match assign t i v heap with
    | .error f => .error f
    | .ok heap => assignModes t (i + 1) rest heap

/-- `func NewRing(servers []*Memcached) (*Ring, error)`. The slice holds pointers
to the objects `servers`, object `j` living at address `j`; the result is the
ring together with the heap after the call. -/
def NewRing (srt : SliceSort) (servers : List Memcached) : Except Fault (Ring × Heap) := do
  let t ← collect [] [] 0 servers
  let t := srt.run t
  let heap ← assignModes t 0 t servers
  pure ({ Servers := List.range servers.length, Table := t }, heap)

/-- The sorter used when a ring is evaluated on concrete servers. -/
def insertionSlice : SliceSort where
  run := sortByHash
  perm := by
    have hins : ∀ (a : node) (l : List node), (insertByHash a l).Perm (a :: l) := by
      intro a l
      induction l with
      | nil => simp [insertByHash]
      | cons b l ih =>
        unfold insertByHash
        split
        · exact List.Perm.refl _
        · exact (List.Perm.cons b ih).trans (List.Perm.swap a b l)
    intro t
    induction t with
    | nil => simp [sortByHash]
    | cons a l ih => exact (hins a (sortByHash l)).trans (List.Perm.cons a ih)
  sorted := by
    have hperm : ∀ (a : node) (l : List node), (insertByHash a l).Perm (a :: l) := by
      intro a l
      induction l with
      | nil => simp [insertByHash]
      | cons b l ih =>
        unfold insertByHash
        split
        · exact List.Perm.refl _
        · exact (List.Perm.cons b ih).trans (List.Perm.swap a b l)
    have hins : ∀ (a : node) (l : List node),
        l.Pairwise (fun a b => a.Hash ≤ b.Hash) →
        (insertByHash a l).Pairwise (fun a b => a.Hash ≤ b.Hash) := by
      intro a l
      induction l with
      | nil => intro _; simp [insertByHash]
      | cons b l ih =>
        intro hl
        obtain ⟨hb, hl'⟩ := List.pairwise_cons.mp hl
        unfold insertByHash
        split
        · rename_i hab
          refine List.pairwise_cons.mpr ⟨?_, hl⟩
          intro c hc
          rcases List.mem_cons.mp hc with rfl | hc
          · exact hab
          · exact Nat.le_trans hab (hb c hc)
        · rename_i hab
          refine List.pairwise_cons.mpr ⟨?_, ih hl'⟩
          intro c hc
          rcases List.mem_cons.mp ((hperm a l).mem_iff.mp hc) with rfl | hc
          · omega
          · exact hb c hc
    intro t
    induction t with
    | nil => simp [sortByHash]
    | cons a l ih => exact hins a (sortByHash l) ih

/-! ## The backend client as the router sees it (`client/client.go`) -/

/-- The values of Go type `error` that reach the router: the three named
errors of `client.go`, and an error of the connection. -/
inductive Error where
  | ErrKeyNotFound
  | ErrKeyAlreadyExists
  | ErrValueTooLarge
  | transport (code : Nat)
  deriving DecidableEq, Repr

/-- `type Item struct`. -/
structure Item where
  Key : List Nat
  Value : List Nat
  Extra : List Nat
  CAS : Nat
  Err : Option Error
  Raw : List Nat
  deriving DecidableEq, Repr

/-- A call of one of the asynchronous methods of `*client.Client`, with its
arguments. A nil `flag` slice is the empty list. -/
inductive Call where
  | GetAsync (key : List Nat)
  | SetAsync (key value : List Nat) (cas : Nat) (flag : List Nat) (expiration : Int)
  | AddAsync (key value flag : List Nat) (expiration : Int)
  | ReplaceAsync (key value : List Nat) (cas : Nat) (flag : List Nat) (expiration : Int)
  | DelAsync (key : List Nat)
  | IncrAsync (key : List Nat) (delta initial : Int) (expiration : Int)
  | DecrAsync (key : List Nat) (delta initial : Int) (expiration : Int)
  deriving DecidableEq, Repr

def OpcodeGet : Nat := 0x00
def OpcodeSet : Nat := 0x01
def OpcodeAdd : Nat := 0x02
def OpcodeReplace : Nat := 0x03
def OpcodeDel : Nat := 0x04
def OpcodeIncr : Nat := 0x05
def OpcodeDecr : Nat := 0x06

/-- The opcode each method puts in `buf[1]` of the request header. -/
def Call.opcode : Call → Nat
  | .GetAsync _ => OpcodeGet
  | .SetAsync _ _ _ _ _ => OpcodeSet
  | .AddAsync _ _ _ _ => OpcodeAdd
  | .ReplaceAsync _ _ _ _ _ => OpcodeReplace
  | .DelAsync _ => OpcodeDel
  | .IncrAsync _ _ _ _ => OpcodeIncr
  | .DecrAsync _ _ _ _ => OpcodeDecr

/-- The key argument of a call. -/
def Call.key : Call → List Nat
  | .GetAsync k => k
  | .SetAsync k _ _ _ _ => k
  | .AddAsync k _ _ _ => k
  | .ReplaceAsync k _ _ _ _ => k
  | .DelAsync k => k
  | .IncrAsync k _ _ _ => k
  | .DecrAsync k _ _ _ => k

/-- One request handed to a backend client: which client, which call. -/
structure Sent where
  client : Nat
  call : Call
  deriving DecidableEq, Repr

/-- The outcome of `client.conn.Write(b.Bytes())` in `callAsync`: the whole
buffer written without error, or not (`err` is `none` for a short write that
reports no error). -/
inductive WriteResult where
  | complete
  | failed (err : Option Error)
  deriving DecidableEq, Repr

/-- The world outside the router: for a history of requests ending with the
current one, how its write ends and which item the client's reader delivers
on its channel (`none`: none ever). -/
structure Backend where
  write : List Sent → WriteResult
  reply : List Sent → Option Item

/-- A value of type `<-chan *Item`: the channel that `callAsync` registered for
the last request of `history`, or a local `make(chan *Item, 1)` holding `v`. -/
inductive Chan where
  | inflight (history : List Sent)
  | buffered (v : Item)
  deriving DecidableEq, Repr

/-- What `<-ch` yields (`none`: the receive never completes); a nil channel
never yields. -/
def recv (env : Backend) : Option Chan → Option Item
  | some (.inflight history) => env.reply history
  | some (.buffered v) => some v
  | none => none

/-- `func (client *Client) callAsync(...)`, for the request `call` on the
client `client`: the request is recorded, and the channel is returned unless
the write failed. -/
def callAsync (env : Backend) (w : List Sent) (client : Nat) (call : Call) :
    List Sent × Option Chan × Option Error :=
  let w := w ++ [{ client := client, call := call }]
  match env.write w with
  | .complete => (w, some (.inflight w), none)
  | .failed err => (w, none, err)

/-- How a method of `*Memcached` ends: it returns `(ch, err)`, it panics, or
it waits for ever on a channel. -/
inductive Result where
  | returned (ch : Option Chan) (err : Option Error)
  | panicked (f : Fault)
  | blocked
  deriving DecidableEq, Repr

/-! ## The methods of `*Memcached` (`router/memcached.go`) -/

/-- `func (m *Memcached) PrimarySecondary() (primary, secondary *Memcached)`. -/
def PrimarySecondary (heap : Heap) (m : Nat) : Except Fault (Option Nat × Option Nat) := do
  let s ← deref heap m
  if s.Mode = ModeReadWrite then pure (some m, s.next) else pure (s.next, some m)

/-- `p.Client` as the receiver of a method call, for a `p` that may be nil:
a nil `p` or a nil `Client` panics. -/
def clientOf (heap : Heap) (p : Option Nat) : Except Fault Nat :=
  match p with
  | none => .error .panicNilDereference
  | some a =>
    match deref heap a with
    | .error f => .error f
    | .ok s =>
      match s.Client with
      | none => .error .panicNilDereference
      | some c => .ok c

/-- `func (m *Memcached) Get(key []byte)`. -/
def Memcached.Get (env : Backend) (heap : Heap) (w : List Sent) (m : Nat) (key : List Nat) :
    List Sent × Result :=
  match deref heap m with
  | .error f => (w, .panicked f)
  | .ok s =>
    if s.Mode ≠ ModeReadWrite then
      match s.next with
      | none => (w, .panicked .panicNilDereference)
      | some nx =>
        match deref heap nx with
        | .error f => (w, .panicked f)
        | .ok n =>
          if n.Mode = ModeReadWrite then
            match clientOf heap (some nx) with
            | .error f => (w, .panicked f)
            | .ok c =>
              let (w, ch, err) := callAsync env w c (.GetAsync key)
              (w, .returned ch err)
          else (w, .panicked .panicUnreachable)
    else
      match clientOf heap (some m) with
      | .error f => (w, .panicked f)
      | .ok c =>
        let (w, ch, err) := callAsync env w c (.GetAsync key)
        (w, .returned ch err)

/-- The condition `secondary != nil && secondary.Mode == ModeWriteOnly`. -/
def isWriteOnly (heap : Heap) (secondary : Option Nat) : Except Fault Bool :=
  match secondary with
  | none => .ok false
  | some a =>
    match deref heap a with
    | .error f => .error f
    | .ok s => .ok (decide (s.Mode = ModeWriteOnly))

/-- The common body of `Set`, `Add`, `Replace`, `Incr` and `Decr`: `call` is the
request made on the primary's client, and `itemErr v` is the error returned
with a nil channel when the primary's item `v` carries an error. -/
def writeThrough (env : Backend) (heap : Heap) (w : List Sent) (m : Nat) (call : Call)
    (key : List Nat) (expiration : Int) (itemErr : Item → Option Error) : List Sent × Result :=
  match PrimarySecondary heap m with
  | .error f => (w, .panicked f)
  | .ok (primary, secondary) =>
    match clientOf heap primary with
    | .error f => (w, .panicked f)
    | .ok pc =>
      let (w, result, err) := callAsync env w pc call
      if err ≠ none then (w, .returned none err)
      else
        match isWriteOnly heap secondary with
        | .error f => (w, .panicked f)
        | .ok true =>
          match recv env result with
          | none => (w, .blocked)
          | some v =>
            if v.Err ≠ none then (w, .returned none (itemErr v))
            else
              match clientOf heap secondary with
              | .error f => (w, .panicked f)
              | .ok sc =>
                let (w, _, err) := callAsync env w sc (.SetAsync key v.Value 0 [] expiration)
                (w, .returned (some (.buffered v)) err)
        | .ok false => (w, .returned result none)

/-- `func (m *Memcached) Set(...)`; on an item with an error it executes
`return nil, err` with `err` the nil error of the primary's `SetAsync`. -/
def Memcached.Set (env : Backend) (heap : Heap) (w : List Sent) (m : Nat)
    (key value : List Nat) (cas : Nat) (flag : List Nat) (expiration : Int) :
    List Sent × Result :=
  writeThrough env heap w m (.SetAsync key value cas flag expiration) key expiration
    (fun _ => none)

/-- `func (m *Memcached) Add(...)`. -/
def Memcached.Add (env : Backend) (heap : Heap) (w : List Sent) (m : Nat)
    (key value flag : List Nat) (expiration : Int) : List Sent × Result :=
  writeThrough env heap w m (.AddAsync key value flag expiration) key expiration
    (fun _ => none)

/-- `func (m *Memcached) Replace(...)`. -/
def Memcached.Replace (env : Backend) (heap : Heap) (w : List Sent) (m : Nat)
    (key value : List Nat) (cas : Nat) (flag : List Nat) (expiration : Int) :
    List Sent × Result :=
  writeThrough env heap w m (.ReplaceAsync key value cas flag expiration) key expiration
    (fun _ => none)

/-- `func (m *Memcached) Incr(...)`; on an item with an error it executes
`return nil, v.Err`. -/
def Memcached.Incr (env : Backend) (heap : Heap) (w : List Sent) (m : Nat)
    (key : List Nat) (delta initial : Int) (expiration : Int) : List Sent × Result :=
  writeThrough env heap w m (.IncrAsync key delta initial expiration) key expiration
    (fun v => v.Err)

/-- `func (m *Memcached) Decr(...)`. -/
def Memcached.Decr (env : Backend) (heap : Heap) (w : List Sent) (m : Nat)
    (key : List Nat) (delta initial : Int) (expiration : Int) : List Sent × Result :=
  writeThrough env heap w m (.DecrAsync key delta initial expiration) key expiration
    (fun v => v.Err)

/-- `func (m *Memcached) Del(key []byte)`. -/
def Memcached.Del (env : Backend) (heap : Heap) (w : List Sent) (m : Nat) (key : List Nat) :
    List Sent × Result :=
  match PrimarySecondary heap m with
  | .error f => (w, .panicked f)
  | .ok (primary, secondary) =>
    match clientOf heap primary with
    | .error f => (w, .panicked f)
    | .ok pc =>
      let (w, res, err) := callAsync env w pc (.DelAsync key)
      if err ≠ none then (w, .returned none err)
      else
        match secondary with
        | none => (w, .returned res err)
        | some _ =>
          match clientOf heap secondary with
          | .error f => (w, .panicked f)
          | .ok sc =>
            let (w, _, err) := callAsync env w sc (.DelAsync key)
            (w, .returned res err)

/-! ## `encoding/binary`, big endian (Go standard library) -/

/-- The bytes `binary.BigEndian.PutUint16` stores for `v`. -/
def PutUint16 (v : Nat) : List Nat :=
  [(v / 2 ^ 8) % 256, v % 256]

/-- The bytes `binary.BigEndian.PutUint32` stores for `v`. -/
def PutUint32 (v : Nat) : List Nat :=
  [(v / 2 ^ 24) % 256, (v / 2 ^ 16) % 256, (v / 2 ^ 8) % 256, v % 256]

/-- The bytes `binary.BigEndian.PutUint64` stores for `v`. -/
def PutUint64 (v : Nat) : List Nat :=
  [(v / 2 ^ 56) % 256, (v / 2 ^ 48) % 256, (v / 2 ^ 40) % 256, (v / 2 ^ 32) % 256,
   (v / 2 ^ 24) % 256, (v / 2 ^ 16) % 256, (v / 2 ^ 8) % 256, v % 256]

/-- The big-endian value of a sequence of bytes. -/
def bigEndian (b : List Nat) : Nat :=
  b.foldl (fun acc x => acc * 256 + x % 256) 0

/-- `binary.BigEndian.Uint16(b)`. -/
def Uint16 (b : List Nat) : Nat := bigEndian (b.take 2)

/-- `binary.BigEndian.Uint32(b)`. -/
def Uint32 (b : List Nat) : Nat := bigEndian (b.take 4)

/-- `binary.BigEndian.Uint64(b)`. -/
def Uint64 (b : List Nat) : Nat := bigEndian (b.take 8)

/-- The slice expression `xs[a:b]` of a slice whose capacity is its length (a
slice that `make([]byte, n)` returned, or a nil slice): it panics unless
`a ≤ b ≤ len(xs)`. -/
def slice (xs : List Nat) (a b : Nat) : Except Fault (List Nat) :=
  if a ≤ b ∧ b ≤ xs.length then .ok ((xs.drop a).take (b - a))
  else .error .panicIndexOutOfRange

/-- A `[]byte` whose capacity may exceed its length: `arr` is the backing array
from the first element of the slice to the end of its capacity, so that
`cap(s) = arr.length`, and `len` is `len(s)`. -/
structure ByteSlice where
  arr : List Nat
  len : Nat
  deriving DecidableEq, Repr

/-- The slice with the elements `b` and no spare capacity. -/
def ByteSlice.ofBytes (b : List Nat) : ByteSlice := { arr := b, len := b.length }

/-- The elements `s[0], ..., s[len(s)-1]`. -/
def ByteSlice.bytes (s : ByteSlice) : List Nat := s.arr.take s.len

/-- The index expression `s[i]`: it panics unless `i < len(s)`. -/
def ByteSlice.index (s : ByteSlice) (i : Nat) : Except Fault Nat :=
  if i < s.len then
    match s.arr[i]? with
    | some x => .ok x
    | none => .error .panicIndexOutOfRange
  else .error .panicIndexOutOfRange

/-- The slice expression `s[a:b]`: it panics unless `a ≤ b ≤ cap(s)`; the
result shares the backing array, from element `a` on. -/
def ByteSlice.slice (s : ByteSlice) (a b : Nat) : Except Fault ByteSlice :=
  if a ≤ b ∧ b ≤ s.arr.length then .ok { arr := s.arr.drop a, len := b - a }
  else .error .panicIndexOutOfRange

/-- The slice expression `s[a:]`, which is `s[a:len(s)]`. -/
def ByteSlice.sliceFrom (s : ByteSlice) (a : Nat) : Except Fault ByteSlice :=
  s.slice a s.len

/-- The slice expression `s[:b]`, which is `s[0:b]`. -/
def ByteSlice.sliceTo (s : ByteSlice) (b : Nat) : Except Fault ByteSlice :=
  s.slice 0 b

/-- The result of `append(s, b...)`. When the capacity suffices the elements
are stored in the backing array of `s`; otherwise a new array is allocated,
of the capacity `grow (cap s) (len s + len b)` that the runtime chooses (never
less than the new length), with the elements after the new length zero. -/
def ByteSlice.append (grow : Nat → Nat → Nat) (s : ByteSlice) (b : List Nat) : ByteSlice :=
  if s.len + b.length ≤ s.arr.length then
    { arr := s.arr.take s.len ++ b ++ s.arr.drop (s.len + b.length), len := s.len + b.length }
  else
    { arr := s.arr.take s.len ++ b ++
        List.replicate (grow s.arr.length (s.len + b.length) - (s.len + b.length)) 0,
      len := s.len + b.length }

/-- The slice `buf` after `bytes` have been stored in `buf[off:off+len(bytes)]`. -/
def putAt (buf : List Nat) (off : Nat) (bytes : List Nat) : List Nat :=
  buf.take off ++ bytes ++ buf.drop (off + bytes.length)

/-! ## Request frames of the backend client (`client/client.go`) -/

def MagicRequest : Nat := 0x80
def MagicResponse : Nat := 0x81

def StatusNoError : Nat := 0x0000
def StatusKeyNotFound : Nat := 0x0001
def StatusKeyExists : Nat := 0x0002
def StatusValueTooLarge : Nat := 0x0003
def StatusInvalidArguments : Nat := 0x0004
def StatusItemNotStored : Nat := 0x0005
def StatusNonNumericValue : Nat := 0x0006
def StatusUnknownCommand : Nat := 0x0081
def StatusOutOfMemory : Nat := 0x0082
def StatusNotSupported : Nat := 0x0083
def StatusInternalError : Nat := 0x0084
def StatusBusy : Nat := 0x0085
def StatusTemporaryFailure : Nat := 0x0086

/-- `func (client *Client) nextOpaque() uint32`: the new value of the counter. -/
def Client.nextOpaque (sequence : Nat) : Nat := (sequence + 1) % 2 ^ 32

/-- `func (client *Client) GetAsync(key []byte)`: the bytes handed to `callAsync`
(header, then key), which writes them with one `conn.Write`; `sequence` is the
opaque drawn from `nextOpaque`. -/
def Client.GetAsync (sequence : Nat) (key : List Nat) : List Nat :=
  let buf := List.replicate 24 0
  let buf := buf.set 0 MagicRequest
  let buf := buf.set 1 OpcodeGet
  let buf := putAt buf 2 (PutUint16 (key.length % 2 ^ 16))
  let buf := putAt buf 4 (PutUint32 0)
  let buf := putAt buf 8 (PutUint32 (key.length % 2 ^ 32))
  let buf := putAt buf 12 (PutUint32 sequence)
  let buf := putAt buf 16 (PutUint64 0)
  buf ++ key

/-- `func (client *Client) DelAsync(key []byte)`: the bytes handed to `callAsync`. -/
def Client.DelAsync (sequence : Nat) (key : List Nat) : List Nat :=
  let buf := List.replicate 24 0
  let buf := buf.set 0 MagicRequest
  let buf := buf.set 1 OpcodeDel
  let buf := putAt buf 2 (PutUint16 (key.length % 2 ^ 16))
  let buf := putAt buf 8 (PutUint32 (key.length % 2 ^ 32))
  let buf := putAt buf 12 (PutUint32 sequence)
  buf ++ key

/-- `func (client *Client) incrAndDecrAsync(opcode, key, delta, initial,
expiration)`: the bytes handed to `callAsync` (header, extras, key).
`uint64(delta)` of an `int64` is its residue modulo `2^64`. -/
def Client.incrAndDecrAsync (sequence : Nat) (opcode : Nat) (key : List Nat)
    (delta initial : Int) (expiration : Int) : List Nat :=
  let buf := List.replicate 24 0
  let buf := buf.set 0 MagicRequest
  let buf := buf.set 1 opcode
  let buf := putAt buf 2 (PutUint16 (key.length % 2 ^ 16))
  let buf := buf.set 4 20
  let buf := buf.set 5 0
  let buf := putAt buf 6 (PutUint16 0)
  let buf := putAt buf 8 (PutUint32 ((key.length + 20) % 2 ^ 32))
  let buf := putAt buf 12 (PutUint32 sequence)
  let buf := putAt buf 16 (PutUint64 0)
  let extra := List.replicate 20 0
  let extra := putAt extra 0 (PutUint64 (delta % 2 ^ 64).toNat)
  let extra := putAt extra 8 (PutUint64 (initial % 2 ^ 64).toNat)
  let extra := putAt extra 16 (PutUint32 (expiration % 2 ^ 32).toNat)
  buf ++ extra ++ key

/-- `func (client *Client) setAsync(opcode, key, value, cas, flag, expiration)`:
the bytes handed to `callAsync` (header, flag, expiration, key, value). -/
def Client.setAsync (sequence : Nat) (opcode : Nat) (key value : List Nat) (cas : Nat)
    (flag : List Nat) (expiration : Int) : List Nat :=
  let buf := List.replicate 24 0
  let buf := buf.set 0 MagicRequest
  let buf := buf.set 1 opcode
  let buf := putAt buf 2 (PutUint16 (key.length % 2 ^ 16))
  let buf := buf.set 4 ((flag.length + 4) % 256)
  let buf := putAt buf 8 (PutUint32 ((key.length + flag.length + value.length + 4) % 2 ^ 32))
  let buf := putAt buf 12 (PutUint32 sequence)
  let buf := if cas ≠ 0 then putAt buf 16 (PutUint64 cas) else buf
  let b := PutUint32 (expiration % 2 ^ 32).toNat
  buf ++ flag ++ b ++ key ++ value

/-- The frame that each asynchronous method writes, with the opaque `sequence`:
`SetAsync`, `AddAsync` and `ReplaceAsync` go through `setAsync` (`AddAsync` with
`cas` 0), `IncrAsync` and `DecrAsync` through `incrAndDecrAsync`. -/
def Call.frame (sequence : Nat) : Call → List Nat
  | .GetAsync key => Client.GetAsync sequence key
  | .SetAsync key value cas flag expiration =>
    Client.setAsync sequence OpcodeSet key value cas flag expiration
  | .AddAsync key value flag expiration =>
    Client.setAsync sequence OpcodeAdd key value 0 flag expiration
  | .ReplaceAsync key value cas flag expiration =>
    Client.setAsync sequence OpcodeReplace key value cas flag expiration
  | .DelAsync key => Client.DelAsync sequence key
  | .IncrAsync key delta initial expiration =>
    Client.incrAndDecrAsync sequence OpcodeIncr key delta initial expiration
  | .DecrAsync key delta initial expiration =>
    Client.incrAndDecrAsync sequence OpcodeDecr key delta initial expiration

/-! ## The reader of the backend client (`client/client.go`) -/

/-- The `switch status` of `dispatch`. -/
def statusErr (status : Nat) : Option Error :=
  if status = StatusKeyNotFound then some .ErrKeyNotFound
  else if status = StatusKeyExists then some .ErrKeyAlreadyExists
  else if status = StatusValueTooLarge then some .ErrValueTooLarge
  else none

/-- `func (client *Client) dispatch(buf []byte)`. The map `asyncRequest` is a
list of pairs (opaque, channel), a channel being named by a number; `tag` is
the local variable `opaque`. The result
is the map after the call and, if an item was sent, the channel and the item. -/
def Client.dispatch (asyncRequest : List (Nat × Nat)) (buf : List Nat) :
    Except Fault (List (Nat × Nat) × Option (Nat × Item)) := do
  let magic ← index buf 0
  if magic ≠ MagicResponse then
    pure (asyncRequest, none)
  else if buf.length < 24 then
    pure (asyncRequest, none)
  else
    let keySize := Uint16 (← slice buf 2 4)
    let extraSize ← index buf 4
    let status := Uint16 (← slice buf 6 8)
    let bodySize := Uint32 (← slice buf 8 12)
    let tag := Uint32 (← slice buf 12 16)
    let cas := Uint64 (← slice buf 16 24)
    let extra ← slice buf 24 (24 + extraSize)
    let key ← if keySize > 0 then slice buf (24 + extraSize) (24 + extraSize + keySize)
      else pure []
    let body ← if bodySize > 0 then
        slice buf (24 + keySize + extraSize) (24 + keySize + extraSize + bodySize)
      else pure []
    let err := statusErr status
    match asyncRequest.lookup tag with
    | some c =>
      pure (asyncRequest.filter (fun e => e.1 ≠ tag),
        some (c, { Key := key, Value := body, Extra := extra, CAS := cas, Err := err, Raw := buf }))
    | none => pure (asyncRequest, none)

/-- What a run of `readConn` did: the buffers it passed to `dispatch`, the
items sent on channels, the map at the end, and the panic that ended it, if one
did. -/
structure Reader where
  dispatched : List (List Nat)
  delivered : List (Nat × Item)
  asyncRequest : List (Nat × Nat)
  fault : Option Fault
  deriving DecidableEq, Repr

/-- `func (client *Client) readConn()`: `messageBuf` is the buffer at the top of
the loop, `reads` the bytes that the successive calls of `conn.Read` return
(at most 1500 each) before `io.EOF`. -/
def Client.readConn : List (Nat × Nat) → List Nat → List (List Nat) → Reader
  | asyncRequest, _, [] =>
    { dispatched := [], delivered := [], asyncRequest := asyncRequest, fault := none }
  | asyncRequest, messageBuf, chunk :: reads =>
    let messageBuf := messageBuf ++ chunk
    if chunk.length = 1500 then Client.readConn asyncRequest messageBuf reads
    else if messageBuf.length < 24 then Client.readConn asyncRequest [] reads
    else
      match Client.dispatch asyncRequest messageBuf with
      | .error f =>
        { dispatched := [messageBuf], delivered := [], asyncRequest := asyncRequest,
          fault := some f }
      | .ok (asyncRequest, sent) =>
        let r := Client.readConn asyncRequest [] reads
        { r with dispatched := messageBuf :: r.dispatched,
                 delivered := sent.toList ++ r.delivered }

/-! ## The cluster and the frontend (`router/cluster.go`, `router/router.go`) -/

/-- A call of one of the seven methods of `*Cluster`, with its arguments. -/
inductive ClusterCall where
  | Get (key : List Nat)
  | Set (key value : List Nat) (cas : Nat) (flag : List Nat) (expiration : Int)
  | Add (key value flag : List Nat) (expiration : Int)
  | Replace (key value : List Nat) (cas : Nat) (flag : List Nat) (expiration : Int)
  | Del (key : List Nat)
  | Incr (key : List Nat) (delta initial : Int) (expiration : Int)
  | Decr (key : List Nat) (delta initial : Int) (expiration : Int)
  deriving DecidableEq, Repr

/-- The `key` argument of a cluster call. -/
def ClusterCall.key : ClusterCall → List Nat
  | .Get k => k
  | .Set k _ _ _ _ => k
  | .Add k _ _ _ => k
  | .Replace k _ _ _ _ => k
  | .Del k => k
  | .Incr k _ _ _ => k
  | .Decr k _ _ _ => k

/-- The methods of `*Cluster`: each is `c.Ring.Pick(key)` followed by the method
of the same name of the picked backend. -/
def Cluster.call (env : Backend) (ring : Ring) (heap : Heap) (w : List Sent)
    (c : ClusterCall) : List Sent × Result :=
  match Ring.Pick ring c.key with
  | .error f => (w, .panicked f)
  | .ok m =>
    match c with
    | .Get key => Memcached.Get env heap w m key
    | .Set key value cas flag expiration => Memcached.Set env heap w m key value cas flag expiration
    | .Add key value flag expiration => Memcached.Add env heap w m key value flag expiration
    | .Replace key value cas flag expiration =>
      Memcached.Replace env heap w m key value cas flag expiration
    | .Del key => Memcached.Del env heap w m key
    | .Incr key delta initial expiration => Memcached.Incr env heap w m key delta initial expiration
    | .Decr key delta initial expiration => Memcached.Decr env heap w m key delta initial expiration

/-- The arguments that `parseRequest` passes to `handle`; `tag` is the argument
`opaque`. -/
structure Parsed where
  opcode : Nat
  key : List Nat
  value : List Nat
  cas : Nat
  extra : List Nat
  tag : Nat
  deriving DecidableEq, Repr

/-- `func (s *Router) parseRequest(conn, req)` up to its call of `handle`:
`none` when it returns at the magic check. `req[i]` is bounded by the length of
`req`, `req[a:b]` by its capacity, and `req[a:]` is `req[a:len(req)]`.
`copy(extra, req[:extraLength])` fills the `extraLength` elements of `extra`, and
likewise `key`. The `value` filled in the last `if` is a variable declared
inside that block (`value := make(...)`), so the `value` passed to `handle` is
the nil slice declared before it. -/
def Router.parse (req : ByteSlice) : Except Fault (Option Parsed) := do
  let magic ← req.index 0
  if magic ≠ MagicRequest then
    pure none
  else
    let opcode ← req.index 1
    let keyLength := Uint16 (← req.slice 2 4).bytes
    let extraLength ← req.index 4
    let totalBody := Uint32 (← req.slice 8 12).bytes
    let tag := Uint32 (← req.slice 12 16).bytes
    let cas := Uint64 (← req.slice 16 24).bytes
    let valueLength : Int := (totalBody : Int) - (extraLength : Int) - (keyLength : Int)
    let req ← req.sliceFrom 24
    let (extra, req) ←
      if extraLength > 0 then do
        let extra := (← req.sliceTo extraLength).bytes
        let req ← req.sliceFrom extraLength
        pure (extra, req)
      else pure (([] : List Nat), req)
    let (key, req) ←
      if keyLength > 0 then do
        let key := (← req.sliceTo keyLength).bytes
        let req ← req.sliceFrom keyLength
        pure (key, req)
      else pure (([] : List Nat), req)
    let value : List Nat := []
    if valueLength > 0 then do
      let _ ← req.sliceTo valueLength.toNat
      pure (some
        { opcode := opcode, key := key, value := value, cas := cas, extra := extra, tag := tag })
    else
      pure (some
        { opcode := opcode, key := key, value := value, cas := cas, extra := extra, tag := tag })

/-- The `switch opcode` of `handle`: the method of the cluster that it calls,
with its arguments; `none` when no case matches. `extra` is the nil slice or
the slice that `parseRequest` made, so its capacity is its length. -/
def Router.route (opcode : Nat) (key value : List Nat) (cas : Nat) (extra : List Nat) :
    Except Fault (Option ClusterCall) :=
  if opcode = OpcodeGet then .ok (some (.Get key))
  else if opcode = OpcodeSet then do
    let expiration := Uint32 (← slice extra 4 8)
    let flag ← slice extra 0 4
    pure (some (.Set key value cas flag (expiration : Int)))
  else .ok none

/-- How a call of `handle` or `parseRequest` ends: it wrote `raw` to the client
connection, it returned without writing, it panicked, or it waits for ever. -/
inductive Served where
  | wrote (raw : List Nat)
  | silent
  | panicked (f : Fault)
  | blocked
  deriving DecidableEq, Repr

/-- `func (s *Router) handle(conn, opcode, key, value, cas, extra, opaque)`;
`_tag` is the argument `opaque`, which the body never reads. -/
def Router.handle (env : Backend) (ring : Ring) (heap : Heap) (w : List Sent)
    (opcode : Nat) (key value : List Nat) (cas : Nat) (extra : List Nat) (_tag : Nat) :
    List Sent × Served :=
  match Router.route opcode key value cas extra with
  | .error f => (w, .panicked f)
  | .ok none => (w, .silent)
  | .ok (some c) =>
    match Cluster.call env ring heap w c with
    | (w, .panicked f) => (w, .panicked f)
    | (w, .blocked) => (w, .blocked)
    | (w, .returned none _) => (w, .silent)
    | (w, .returned (some v) _) =>
      match recv env (some v) with
      | none => (w, .blocked)
      | some res => (w, .wrote res.Raw)

/-- `func (s *Router) parseRequest(conn, req)`. -/
def Router.parseRequest (env : Backend) (ring : Ring) (heap : Heap) (w : List Sent)
    (req : ByteSlice) : List Sent × Served :=
  match Router.parse req with
  | .error f => (w, .panicked f)
  | .ok none => (w, .silent)
  | .ok (some r) => Router.handle env ring heap w r.opcode r.key r.value r.cas r.extra r.tag

/-- `func (s *Router) serve(conn)`: `msg` is the buffer at the top of the loop
(`make([]byte, 0)` at the start, `msg[:0]` after a call of `parseRequest`),
`reads` the bytes that the successive calls of `conn.Read` return (at most 1500
each) before an error, `grow` the capacity that `append` allocates. The result
lists the calls of `parseRequest`: the elements of the argument, and how the
call ended; a call that does not return ends the list. -/
def Router.serve (grow : Nat → Nat → Nat) (env : Backend) (ring : Ring) (heap : Heap) :
    List Sent → ByteSlice → List (List Nat) → List (List Nat × Served)
  | _, _, [] => []
  | w, msg, chunk :: reads =>
    if chunk.length = 1500 then
      Router.serve grow env ring heap w (msg.append grow chunk) reads
    else
      match Router.parseRequest env ring heap w msg with
      | (_, .panicked f) => [(msg.bytes, .panicked f)]
      | (_, .blocked) => [(msg.bytes, .blocked)]
      | (w, out) =>
        (msg.bytes, out) :: Router.serve grow env ring heap w { arr := msg.arr, len := 0 } reads

/-! ## The configuration (`router/config.go`) -/

/-- `type ConfigServer struct`. -/
structure ConfigServer where
  Name : String
  Host : String
  Port : Int
  Status : String
  Phase : String
  deriving DecidableEq, Repr

/-- `type Config struct`. -/
structure Config where
  Servers : List ConfigServer
  deriving DecidableEq, Repr

/-- The body of the loop of `ToRouter`: the `&Memcached{...}` stored in
`servers[i]` for the entry `v`. -/
def ConfigServer.memcached (v : ConfigServer) : Memcached :=
  let status :=
    if v.Status = "add" then StatusAdding
    else if v.Status = "delete" then StatusDeleting
    else StatusNormal
  let phase :=
    if v.Phase = "do" then PhaseDeleteOnly
    else if v.Phase = "wo" then PhaseWriteOnly
    else PhaseReadWrite
  { Name := v.Name, Host := v.Host, Port := v.Port, Status := status, Phase := phase,
    Mode := ModeDeleteOnly, Client := none, hash := 0, next := none }

/-- The local slice `servers` of `ToRouter` after its loop. -/
def Config.servers (c : Config) : List Memcached :=
  c.Servers.map ConfigServer.memcached

set_option linter.unusedVariables false in
/-- `func (c *Config) ToRouter() []*Memcached`: it fills `servers` and ends with
`return nil`; the nil slice is the empty list. -/
def Config.ToRouter (c : Config) : List Memcached :=
  let servers := Config.servers c
  []

/-! ## Fixtures -/

/-- The literal `&Memcached{Name: name}` of `ring_test.go`: every other field
has its zero value. -/
def named (name : String) : Memcached :=
  { Name := name, Host := "", Port := 0, Status := StatusNormal, Phase := PhaseDeleteOnly,
    Mode := ModeDeleteOnly, Client := none, hash := 0, next := none }

/-- The three servers of `TestRing_Pick`, at addresses 0, 1 and 2. -/
def testHeap : Heap := [named "host1", named "host2", named "host3"]

/-- First case of `TestRing_Pick`. -/
def testRing1 : Ring :=
  { Servers := [], Table := [⟨1, 0⟩, ⟨2, 1⟩, ⟨3632233997, 2⟩] }

/-- Second case of `TestRing_Pick`. -/
def testRing2 : Ring :=
  { Servers := [], Table := [⟨1, 0⟩, ⟨2, 1⟩, ⟨3632233996, 2⟩] }

/-- Third case of `TestRing_Pick`. -/
def testRing3 : Ring :=
  { Servers := [], Table := [⟨1, 0⟩, ⟨3632233996, 1⟩, ⟨3632233998, 2⟩] }

/-- A server in the state `NewMemcached` leaves it in: `Mode` has its zero value
and `next` is nil. -/
def fresh (name : String) (status : Status) (phase : Phase) (client : Nat) : Memcached :=
  { Name := name, Host := "localhost", Port := 11211, Status := status, Phase := phase,
    Mode := ModeDeleteOnly, Client := some client, hash := 0, next := none }

/-- Three servers, two of them being added in write-only phase. -/
def migrating : List Memcached :=
  [fresh "m1" StatusAdding PhaseWriteOnly 0, fresh "m2" StatusAdding PhaseWriteOnly 1,
   fresh "m3" StatusNormal PhaseReadWrite 2]

/-- What is read off a run of `NewRing`: mode and sibling of the objects at
addresses 0, 1 and 2, and the backend `Pick` finds for the key "key". -/
def summary (run : Except Fault (Ring × Heap)) :
    Option (List (Option (Mode × Option Nat)) × Option Nat) :=
  match run with
  | .error _ => none
  | .ok (ring, heap) =>
    some ([heap[0]?.map (fun S => (S.Mode, S.next)), heap[1]?.map (fun S => (S.Mode, S.next)),
        heap[2]?.map (fun S => (S.Mode, S.next))],
      match ring.Table.find? (fun n => decide (ChecksumIEEE (bytesOf "key") < n.Hash)) with
      | some n => some n.Server
      | none => ring.Table.head?.map (fun n => n.Server))

/-- Three servers: m1 being added in read-write phase, m2 being deleted in
read-write phase, m3 normal. -/
def replacing : List Memcached :=
  [fresh "m1" StatusAdding PhaseReadWrite 0, fresh "m2" StatusDeleting PhaseReadWrite 1,
   fresh "m3" StatusNormal PhaseReadWrite 2]

/-- Three servers: m1 being deleted in delete-only phase, m2 being deleted in
write-only phase, m3 normal. -/
def draining : List Memcached :=
  [fresh "m1" StatusDeleting PhaseDeleteOnly 0, fresh "m2" StatusDeleting PhaseWriteOnly 1,
   fresh "m3" StatusNormal PhaseReadWrite 2]

/-- Two servers: a normal, b being added in delete-only phase. -/
def joining : List Memcached :=
  [fresh "a" StatusNormal PhaseReadWrite 0, fresh "b" StatusAdding PhaseDeleteOnly 1]

/-- What is read off a server object after a run of `NewRing`: its mode, its
sibling, and the name and mode of the object the sibling points to. -/
structure Outline where
  mode : Mode
  sibling : Option Nat
  siblingName : Option String
  siblingMode : Option Mode
  deriving DecidableEq, Repr

/-- The number of objects in the heap that a run of `NewRing` leaves, and the
outline of the objects at the addresses below `n`. -/
def outline (n : Nat) (run : Except Fault (Ring × Heap)) : Option (Nat × List Outline) :=
  match run with
  | .error _ => none
  | .ok (_, heap) =>
    some (heap.length,
      (heap.take n).map (fun S =>
        { mode := S.Mode, sibling := S.next,
          siblingName := S.next.bind (fun d => heap[d]?.map (fun D => D.Name)),
          siblingMode := S.next.bind (fun d => heap[d]?.map (fun D => D.Mode)) }))

/-- A heap as `NewRing` leaves it for a server being added in read-write phase:
at address 0 the server (ReadWrite, client 0), at address 1 its neighbour
(client 1), at address 2 the duplicate of the neighbour, forced to WriteOnly,
which is the sibling of the server. -/
def cutoverHeap : Heap :=
  [{ fresh "new" StatusAdding PhaseReadWrite 0 with Mode := ModeReadWrite, next := some 2 },
   { fresh "old" StatusNormal PhaseReadWrite 1 with Mode := ModeReadWrite },
   { fresh "old" StatusNormal PhaseReadWrite 1 with Mode := ModeWriteOnly }]

/-- An item without error. -/
def storedItem : Item :=
  { Key := [], Value := [49], Extra := [], CAS := 7, Err := none, Raw := [] }

/-- An item for a response with status `KeyNotFound`. -/
def notFoundItem : Item :=
  { Key := [], Value := [], Extra := [], CAS := 0, Err := some .ErrKeyNotFound, Raw := [] }

/-- Every write succeeds and every request is answered `KeyNotFound`. -/
def envNotFound : Backend :=
  { write := fun _ => .complete, reply := fun _ => some notFoundItem }

/-- Every request is answered without error, but a write on the connection of
client `down` fails. -/
def envDown (down : Nat) : Backend :=
  { write := fun history =>
      match history.getLast? with
      | some s => if s.client = down then .failed (some (.transport 32)) else .complete
      | none => .complete,
    reply := fun _ => some storedItem }

/-- A response frame as a memcached server writes it: magic 0x81, opcode 0, key
length, extras length, data type 0, status, total body length, opaque `tag`,
CAS 0, then extras, key and value. -/
def responseFrame (status tag : Nat) (extra key value : List Nat) : List Nat :=
  [MagicResponse, 0] ++ PutUint16 key.length ++ [extra.length, 0] ++ PutUint16 status ++
    PutUint32 (extra.length + key.length + value.length) ++ PutUint32 tag ++ PutUint64 0 ++
    extra ++ key ++ value

/-- The three servers of `TestRing_Pick` as `NewMemcached` and `NewRing` leave
normal servers: clients 0, 1 and 2, ReadWrite mode, no sibling. -/
def liveHeap : Heap :=
  [{ fresh "host1" StatusNormal PhaseReadWrite 0 with Mode := ModeReadWrite },
   { fresh "host2" StatusNormal PhaseReadWrite 1 with Mode := ModeReadWrite },
   { fresh "host3" StatusNormal PhaseReadWrite 2 with Mode := ModeReadWrite }]

/-- Every write succeeds, and the request number `n` of the history is answered
with the value "ok" in a frame whose opaque is `n`, the opaque that a backend
client counting from 1 gave the request. -/
def envEcho : Backend :=
  { write := fun _ => .complete,
    reply := fun history =>
      some { Key := [], Value := [111, 107], Extra := [], CAS := 0, Err := none,
             Raw := responseFrame 0 history.length [] [] [111, 107] } }

/-- A configuration with one server. -/
def oneServer : Config :=
  { Servers :=
      [{ Name := "cache-0", Host := "10.0.0.1", Port := 11211, Status := "normal", Phase := "rw" }] }

/-! ## Vocabulary of the statements -/

/-- A call of one of the five write methods of `*Memcached`, with its arguments. -/
inductive WriteOp where
  | Set (key value : List Nat) (cas : Nat) (flag : List Nat) (expiration : Int)
  | Add (key value flag : List Nat) (expiration : Int)
  | Replace (key value : List Nat) (cas : Nat) (flag : List Nat) (expiration : Int)
  | Incr (key : List Nat) (delta initial : Int) (expiration : Int)
  | Decr (key : List Nat) (delta initial : Int) (expiration : Int)
  deriving DecidableEq, Repr

/-- The method call that `op` stands for, on the backend at address `m`. -/
def WriteOp.run (env : Backend) (heap : Heap) (w : List Sent) (m : Nat) :
    WriteOp → List Sent × Result
  | .Set k v c f e => Memcached.Set env heap w m k v c f e
  | .Add k v f e => Memcached.Add env heap w m k v f e
  | .Replace k v c f e => Memcached.Replace env heap w m k v c f e
  | .Incr k d i e => Memcached.Incr env heap w m k d i e
  | .Decr k d i e => Memcached.Decr env heap w m k d i e

/-- The request that the method makes on the primary's client. -/
def WriteOp.call : WriteOp → Call
  | .Set k v c f e => .SetAsync k v c f e
  | .Add k v f e => .AddAsync k v f e
  | .Replace k v c f e => .ReplaceAsync k v c f e
  | .Incr k d i e => .IncrAsync k d i e
  | .Decr k d i e => .DecrAsync k d i e

/-- The `key` argument of the method. -/
def WriteOp.key : WriteOp → List Nat
  | .Set k _ _ _ _ => k
  | .Add k _ _ _ => k
  | .Replace k _ _ _ _ => k
  | .Incr k _ _ _ => k
  | .Decr k _ _ _ => k

/-- The `expiration` argument of the method. -/
def WriteOp.expiration : WriteOp → Int
  | .Set _ _ _ _ e => e
  | .Add _ _ _ e => e
  | .Replace _ _ _ _ e => e
  | .Incr _ _ _ e => e
  | .Decr _ _ _ e => e

/-- The method is `Incr` or `Decr`. -/
def WriteOp.isCounter : WriteOp → Bool
  | .Incr _ _ _ _ => true
  | .Decr _ _ _ _ => true
  | _ => false


/-- The table that the first loop of `NewRing` builds for the servers `l`, the
first of which has address `a`. -/
def allNodes : Nat → List Memcached → List node
  | _, [] => []
  | a, v :: rest => vnodes v.Name a ++ allNodes (a + 1) rest

/-- The fields of a backend that `NewRing` never assigns are the same in `a`
and `b`: everything but `Mode` and `next`. -/
def sameBackend (a b : Memcached) : Prop :=
  a.Name = b.Name ∧ a.Host = b.Host ∧ a.Port = b.Port ∧ a.Status = b.Status ∧
    a.Phase = b.Phase ∧ a.Client = b.Client ∧ a.hash = b.hash

/-- Column `this.Mode` of the planner table of the specification. -/
def tableMode : Status → Phase → Mode
  | StatusNormal, _ => ModeReadWrite
  | StatusAdding, PhaseDeleteOnly => ModeDeleteOnly
  | StatusAdding, PhaseWriteOnly => ModeWriteOnly
  | StatusAdding, PhaseReadWrite => ModeReadWrite
  | StatusDeleting, PhaseDeleteOnly => ModeReadWrite
  | StatusDeleting, PhaseWriteOnly => ModeReadWrite
  | StatusDeleting, PhaseReadWrite => ModeWriteOnly

/-- The kinds of sibling in the planner table of the specification: none, the
next slot's backend itself, or a copy of it with a forced mode. -/
inductive Sibling where
  | absent
  | itself
  | duplicated (forced : Mode)
  deriving DecidableEq, Repr

/-- Column `this.next.Mode` of the planner table of the specification. -/
def tableSibling : Status → Phase → Sibling
  | StatusNormal, _ => .absent
  | StatusAdding, PhaseDeleteOnly => .itself
  | StatusAdding, PhaseWriteOnly => .itself
  | StatusAdding, PhaseReadWrite => .duplicated ModeWriteOnly
  | StatusDeleting, PhaseDeleteOnly => .duplicated ModeDeleteOnly
  | StatusDeleting, PhaseWriteOnly => .duplicated ModeWriteOnly
  | StatusDeleting, PhaseReadWrite => .duplicated ModeReadWrite

/-- Slot `k` is the last of the slots `0 .. i-1` of `t` that belongs to the
server at address `p`. -/
def LastBefore (t : List node) (i p k : Nat) : Prop :=
  k < i ∧ (∃ n, t[k]? = some n ∧ n.Server = p) ∧
    ∀ j n, k < j → j < i → t[j]? = some n → n.Server ≠ p

/-- Slot `k` is the last slot of `t` that belongs to the server at address `p`. -/
def LastSlot (t : List node) (p k : Nat) : Prop :=
  (∃ n, t[k]? = some n ∧ n.Server = p) ∧ ∀ j n, k < j → t[j]? = some n → n.Server ≠ p

/-- The sibling link that the pass of the mode loop at slot `k` leaves in the
object `S` of the server declared as `s`. -/
def Linked (t : List node) (servers : List Memcached) (heap : Heap) (s S : Memcached)
    (k : Nat) : Prop :=
  match tableSibling s.Status s.Phase with
  | .absent => S.next = s.next
  | .itself => ∃ q, t[k + 1]? = some q ∧ S.next = some q.Server
  | .duplicated m => ∃ q Q0 d D, t[k + 1]? = some q ∧ servers[q.Server]? = some Q0 ∧
      S.next = some d ∧ servers.length ≤ d ∧ heap[d]? = some D ∧ sameBackend Q0 D ∧ D.Mode = m

/-- Invariant of the mode loop of `NewRing` before slot `i`: servers without a
slot so far are untouched; the others have the mode of the planner table and
the link left by their last slot so far. -/
def Planned (t : List node) (servers : List Memcached) (i : Nat) (heap : Heap) : Prop :=
  servers.length ≤ heap.length ∧
  ∀ p s, servers[p]? = some s → ∃ S, heap[p]? = some S ∧ sameBackend s S ∧
    ((∀ j n, j < i → t[j]? = some n → n.Server ≠ p) → S.Mode = s.Mode ∧ S.next = s.next) ∧
    (∀ k, LastBefore t i p k →
      S.Mode = tableMode s.Status s.Phase ∧ Linked t servers heap s S k)

/-- The sibling of the server at address `p` (object `S`) is the backend of the
slot that follows the last slot of `p`, itself: an object of the original
list, whose mode is the one its own status and phase give it. -/
def SiblingItself (ring : Ring) (servers : List Memcached) (heap : Heap) (p : Nat)
    (S : Memcached) : Prop :=
  ∃ k q Q0 Q, LastSlot ring.Table p k ∧ ring.Table[k + 1]? = some q ∧
    S.next = some q.Server ∧ servers[q.Server]? = some Q0 ∧ heap[q.Server]? = some Q ∧
    Q.Mode = tableMode Q0.Status Q0.Phase

/-- The sibling of the server at address `p` (object `S`) is a copy of the
backend of the slot that follows the last slot of `p`: a new object `D` at an
address `d` outside the original list, with mode `forced`, while the original
`Q` keeps the mode its own status and phase give it. -/
def SiblingDuplicated (ring : Ring) (servers : List Memcached) (heap : Heap) (p : Nat)
    (S : Memcached) (forced : Mode) : Prop :=
  ∃ k q Q0 Q d D, LastSlot ring.Table p k ∧ ring.Table[k + 1]? = some q ∧
    servers[q.Server]? = some Q0 ∧ S.next = some d ∧ servers.length ≤ d ∧
    heap[d]? = some D ∧ sameBackend Q0 D ∧ D.Mode = forced ∧
    heap[q.Server]? = some Q ∧ Q.Mode = tableMode Q0.Status Q0.Phase

/-! # Theorems -/

/-! ## `Ring.Pick` -/

theorem index_natCast {α : Type} (xs : List α) (i : Nat) :
    index xs (i : Int) =
      match xs[i]? with
      | some x => .ok x
      | none => .error .panicIndexOutOfRange := by
  unfold index
  have h : ¬ ((i : Int) < 0) := by omega
  simp [h]

theorem index_of_getElem? {α : Type} (xs : List α) (i : Nat) (x : α) (h : xs[i]? = some x) :
    index xs (i : Int) = .ok x := by
  rw [index_natCast, h]

theorem find?_of_first {α : Type} (p : α → Bool) :
    ∀ (l : List α) (s : Nat) (x : α), l[s]? = some x → p x = true →
      (∀ j y, j < s → l[j]? = some y → p y = false) → l.find? p = some x := by
  intro l
  induction l with
  | nil => intro s x h; simp at h
  | cons a l ih =>
    intro s x hx hp hlt
    cases s with
    | zero =>
      simp at hx
      subst hx
      simp [List.find?, hp]
    | succ s =>
      have ha : p a = false := hlt 0 a (by omega) (by simp)
      simp only [List.find?, ha]
      simp at hx
      exact ih s x hx hp (fun j y hj hy => hlt (j + 1) y (by omega) (by simpa using hy))

/-- The loop of `Ring.Pick` on a sorted table, started from bounds that enclose
the answer, stops at the first slot whose hash exceeds `h`, or at the last
slot. -/
theorem pickLoop_spec (table : List node) (h : Nat)
    (hs : table.Pairwise (fun a b => a.Hash ≤ b.Hash)) :
    ∀ (n a b : Nat), b - a = n → a ≤ b → b < table.length →
      (∀ j x, j < a → table[j]? = some x → x.Hash ≤ h) →
      (b + 1 < table.length → ∀ x, table[b]? = some x → h < x.Hash) →
      ∃ s : Nat, pickLoop table h (a : Int) (b : Int) = .ok (s : Int) ∧ s < table.length ∧
        (∀ j x, j < s → table[j]? = some x → x.Hash ≤ h) ∧
        (s + 1 < table.length → ∀ x, table[s]? = some x → h < x.Hash) := by
  intro n
  induction n using Nat.strong_induction_on with
  | _ n ih =>
    intro a b hn hab hb hlo hhi
    unfold pickLoop
    by_cases hpos : (0 : Int) < (b : Int) - (a : Int)
    · have hmid : (a : Int) + ((b : Int) - (a : Int)) / 2 = ((a + (b - a) / 2 : Nat) : Int) := by
        omega
      have hi : a + (b - a) / 2 < table.length := by omega
      simp only [hpos, if_true, hmid]
      rw [index_of_getElem? table _ _ (List.getElem?_eq_getElem hi)]
      simp only
      by_cases hlt : h < (table[a + (b - a) / 2]).Hash
      · simp only [hlt, if_true]
        refine ih ((a + (b - a) / 2) - a) (by omega) a (a + (b - a) / 2) rfl (by omega) hi hlo ?_
        intro _ x hx
        rw [List.getElem?_eq_getElem hi] at hx
        cases hx
        exact hlt
      · simp only [hlt, if_false]
        have hcast : ((a + (b - a) / 2 : Nat) : Int) + 1 = ((a + (b - a) / 2 + 1 : Nat) : Int) := by
          push_cast; ring
        rw [hcast]
        refine ih (b - (a + (b - a) / 2 + 1)) (by omega) (a + (b - a) / 2 + 1) b rfl (by omega)
          hb ?_ hhi
        intro j x hj hx
        obtain ⟨hjl, hjx⟩ := List.getElem?_eq_some.mp hx
        subst hjx
        by_cases hji : j = a + (b - a) / 2
        · subst hji; omega
        · have := (List.pairwise_iff_getElem.mp hs) j (a + (b - a) / 2) hjl hi (by omega)
          omega
    · simp only [hpos, if_false]
      have hab' : a = b := by omega
      subst hab'
      exact ⟨a, rfl, hb, hlo, hhi⟩

/-- `Ring.Pick` on a non-empty sorted table: the first entry whose hash exceeds
the CRC of the key, and entry 0 when there is none. -/
theorem Pick_eq_find (r : Ring) (key : List Nat) (hne : r.Table ≠ [])
    (hs : r.Table.Pairwise (fun a b => a.Hash ≤ b.Hash)) :
    Ring.Pick r key = .ok
      (match r.Table.find? (fun n => decide (ChecksumIEEE key < n.Hash)) with
       | some n => n.Server
       | none => (r.Table.head hne).Server) := by
  have hlen : 0 < r.Table.length := List.length_pos.mpr hne
  obtain ⟨s, hloop, hsl, hlo, hhi⟩ :=
    pickLoop_spec r.Table (ChecksumIEEE key) hs (r.Table.length - 1) 0 (r.Table.length - 1)
      (by omega) (by omega) (by omega) (fun j x hj => absurd hj (by omega))
      (fun hcontra => absurd hcontra (by omega))
  have hcast : ((r.Table.length : Int) - 1) = ((r.Table.length - 1 : Nat) : Int) := by omega
  have hs0 : index r.Table (s : Int) = .ok r.Table[s] :=
    index_of_getElem? _ _ _ (List.getElem?_eq_getElem hsl)
  have h00 : index r.Table (0 : Int) = .ok (r.Table.head hne) := by
    have : index r.Table ((0 : Nat) : Int) = .ok (r.Table.head hne) := by
      apply index_of_getElem?
      rw [← List.head?_eq_getElem?, List.head?_eq_head hne]
    simpa using this
  unfold Ring.Pick
  simp only [bind, Except.bind, pure, Except.pure]
  rw [hcast]
  have hloop' : pickLoop r.Table (ChecksumIEEE key) 0 ((r.Table.length - 1 : Nat) : Int)
      = .ok (s : Int) := by simpa using hloop
  rw [hloop']
  simp only
  by_cases hlast : s + 1 = r.Table.length
  · have hc : (s : Int) = ((r.Table.length - 1 : Nat) : Int) := by omega
    simp only [hc, if_true]
    rw [← hc, hs0]
    simp only
    by_cases hle : (r.Table[s]).Hash ≤ ChecksumIEEE key
    · have hnone : r.Table.find? (fun n => decide (ChecksumIEEE key < n.Hash)) = none := by
        rw [List.find?_eq_none]
        intro x hx
        obtain ⟨j, hj, hjx⟩ := List.mem_iff_getElem.mp hx
        subst hjx
        by_cases hjs : j = s
        · subst hjs; simp; omega
        · have := hlo j _ (by omega) (List.getElem?_eq_getElem hj)
          simp; omega
      simp only [hle, decide_True, if_true, h00, hnone]
    · have hsome : r.Table.find? (fun n => decide (ChecksumIEEE key < n.Hash))
          = some r.Table[s] := by
        apply find?_of_first _ _ s _ (List.getElem?_eq_getElem hsl)
        · simp; omega
        · intro j y hj hy
          have := hlo j y hj hy
          simp; omega
      simp [hle, hs0, hsome]
  · have hc : ¬ ((s : Int) = ((r.Table.length - 1 : Nat) : Int)) := by omega
    have hgt := hhi (by omega) _ (List.getElem?_eq_getElem hsl)
    have hsome : r.Table.find? (fun n => decide (ChecksumIEEE key < n.Hash))
        = some r.Table[s] := by
      apply find?_of_first _ _ s _ (List.getElem?_eq_getElem hsl)
      · simpa using hgt
      · intro j y hj hy
        have := hlo j y hj hy
        simp; omega
    simp [hc, hs0, hsome]

theorem Pick_testRing1 : Ring.Pick testRing1 (bytesOf "test") = .ok 2 := by
  rw [Pick_eq_find testRing1 (bytesOf "test") (by decide) (by decide)]
  decide

theorem Pick_testRing2 : Ring.Pick testRing2 (bytesOf "test") = .ok 0 := by
  rw [Pick_eq_find testRing2 (bytesOf "test") (by decide) (by decide)]
  decide

theorem Pick_testRing3 : Ring.Pick testRing3 (bytesOf "test") = .ok 2 := by
  rw [Pick_eq_find testRing3 (bytesOf "test") (by decide) (by decide)]
  decide

/-- C1, as stated, fails on the second case of `TestRing_Pick`: the key "test"
has CRC 3632233996, the entry with the smallest hash at or above it is the
third one (hash 3632233996, host3), and `Pick` returns host1 (address 0). So
no entry with the smallest hash greater than or equal to the CRC is the one
whose server `Pick` returns. -/
theorem Pick_at_least_refuted :
    testRing2.Table ≠ [] ∧
    testRing2.Table.Pairwise (fun a b => a.Hash ≤ b.Hash) ∧
    ChecksumIEEE (bytesOf "test") = 3632233996 ∧
    Ring.Pick testRing2 (bytesOf "test") = .ok 0 ∧
    ¬ ∃ n ∈ testRing2.Table,
        ChecksumIEEE (bytesOf "test") ≤ n.Hash ∧
        (∀ n' ∈ testRing2.Table, ChecksumIEEE (bytesOf "test") ≤ n'.Hash → n.Hash ≤ n'.Hash) ∧
        Ring.Pick testRing2 (bytesOf "test") = .ok n.Server := by
  refine ⟨by decide, by decide, by decide, Pick_testRing2, ?_⟩
  rw [Pick_testRing2]
  decide

/-- C1, amended: on a non-empty table sorted ascending by hash, `Pick` returns
the server of an entry with the smallest hash strictly greater than the CRC of
the key, and the server of entry 0 when no entry has a hash greater than the
CRC. -/
theorem Pick_smallest_above (r : Ring) (key : List Nat) (hne : r.Table ≠ [])
    (hs : r.Table.Pairwise (fun a b => a.Hash ≤ b.Hash)) :
    (∃ n ∈ r.Table, ChecksumIEEE key < n.Hash ∧
        (∀ n' ∈ r.Table, ChecksumIEEE key < n'.Hash → n.Hash ≤ n'.Hash) ∧
        Ring.Pick r key = .ok n.Server) ∨
    ((∀ n ∈ r.Table, n.Hash ≤ ChecksumIEEE key) ∧
        ∃ n, r.Table[0]? = some n ∧ Ring.Pick r key = .ok n.Server) := by
  have hpick := Pick_eq_find r key hne hs
  cases hfind : r.Table.find? (fun n => decide (ChecksumIEEE key < n.Hash)) with
  | none =>
    right
    rw [hfind] at hpick
    refine ⟨?_, r.Table.head hne, ?_, hpick⟩
    · intro n hn
      have := (List.find?_eq_none.mp hfind) n hn
      simp at this
      exact this
    · rw [← List.head?_eq_getElem?, List.head?_eq_head hne]
  | some n =>
    left
    rw [hfind] at hpick
    obtain ⟨hp, as, bs, hsplit, has⟩ := List.find?_eq_some.mp hfind
    have hp' : ChecksumIEEE key < n.Hash := by simpa using hp
    refine ⟨n, List.mem_of_find?_eq_some hfind, hp', ?_, hpick⟩
    intro n' hn' hgt
    rw [hsplit] at hn' hs
    rcases List.mem_append.mp hn' with hin | hin
    · have := has n' hin
      simp at this
      omega
    · rcases List.mem_cons.mp hin with rfl | hin
      · exact Nat.le_refl _
      · have hs2 := (List.pairwise_append.mp hs).2.1
        exact (List.pairwise_cons.mp hs2).1 n' hin

theorem Pick_smallest_above_witness :
    testRing1.Table ≠ [] ∧
    testRing1.Table.Pairwise (fun a b => a.Hash ≤ b.Hash) ∧
    ((∃ n ∈ testRing1.Table, ChecksumIEEE (bytesOf "test") < n.Hash ∧
        (∀ n' ∈ testRing1.Table, ChecksumIEEE (bytesOf "test") < n'.Hash → n.Hash ≤ n'.Hash) ∧
        Ring.Pick testRing1 (bytesOf "test") = .ok n.Server) ∨
    ((∀ n ∈ testRing1.Table, n.Hash ≤ ChecksumIEEE (bytesOf "test")) ∧
        ∃ n, testRing1.Table[0]? = some n ∧
          Ring.Pick testRing1 (bytesOf "test") = .ok n.Server)) :=
  ⟨by decide, by decide,
    Pick_smallest_above testRing1 (bytesOf "test") (by decide) (by decide)⟩

/-- C2: on a non-empty table sorted ascending by hash, `Pick` returns the server
of the first entry whose hash is strictly greater than `h = CRC32-IEEE(key)`,
and the server of entry 0 when no hash exceeds `h`; the entry found in the
first case never has hash `h`, so equality with `h` does not earn an entry the
key. The three cases of `TestRing_Pick` for the key "test" (`h = 3632233996`)
give host3, host1 and host3. -/
theorem Pick_first_above (r : Ring) (key : List Nat) (hne : r.Table ≠ [])
    (hs : r.Table.Pairwise (fun a b => a.Hash ≤ b.Hash)) :
    Ring.Pick r key = .ok
      (match r.Table.find? (fun n => decide (ChecksumIEEE key < n.Hash)) with
       | some n => n.Server
       | none => (r.Table.head hne).Server) ∧
    (∀ n, r.Table.find? (fun n => decide (ChecksumIEEE key < n.Hash)) = some n →
      n.Hash ≠ ChecksumIEEE key) ∧
    ChecksumIEEE (bytesOf "test") = 3632233996 ∧
    (Ring.Pick testRing1 (bytesOf "test") = .ok 2 ∧
      testHeap[2]?.map (fun s => s.Name) = some "host3") ∧
    (Ring.Pick testRing2 (bytesOf "test") = .ok 0 ∧
      testHeap[0]?.map (fun s => s.Name) = some "host1") ∧
    (Ring.Pick testRing3 (bytesOf "test") = .ok 2 ∧
      testHeap[2]?.map (fun s => s.Name) = some "host3") := by
  refine ⟨Pick_eq_find r key hne hs, ?_, by decide, ⟨Pick_testRing1, by decide⟩,
    ⟨Pick_testRing2, by decide⟩, ⟨Pick_testRing3, by decide⟩⟩
  intro n hn
  have hp := List.find?_some hn
  simp at hp
  omega

theorem Pick_first_above_witness :
    testRing3.Table ≠ [] ∧
    testRing3.Table.Pairwise (fun a b => a.Hash ≤ b.Hash) ∧
    Ring.Pick testRing3 (bytesOf "test") = .ok 2 :=
  ⟨by decide, by decide,
    (Pick_first_above testRing3 (bytesOf "test") (by decide) (by decide)).1.trans (by decide)⟩

/-! ## `NewRing`: names and table -/

theorem collect_ok : ∀ (l : List Memcached) (c : List String) (t : List node) (a : Nat),
    (∀ s ∈ l, s.Name ∉ c) → (l.map (fun s => s.Name)).Nodup →
    collect c t a l = .ok (t ++ allNodes a l) := by
  intro l
  induction l with
  | nil => intro c t a _ _; simp [collect, allNodes]
  | cons v rest ih =>
    intro c t a hc hnd
    have hv : v.Name ∉ c := hc v (List.mem_cons_self _ _)
    simp only [List.map_cons, List.nodup_cons] at hnd
    unfold collect
    simp only [hv, if_false]
    rw [ih (v.Name :: c) (t ++ vnodes v.Name a) (a + 1) ?_ hnd.2]
    · simp [allNodes]
    · intro s hs hmem
      rcases List.mem_cons.mp hmem with heq | hmem
      · exact hnd.1 (List.mem_map.mpr ⟨s, hs, heq⟩)
      · exact hc s (List.mem_cons_of_mem _ hs) hmem

theorem collect_conflict : ∀ (l : List Memcached) (c : List String) (t : List node) (a : Nat),
    ¬ ((∀ s ∈ l, s.Name ∉ c) ∧ (l.map (fun s => s.Name)).Nodup) →
    collect c t a l = .error .ErrConflictName := by
  intro l
  induction l with
  | nil => intro c t a h; simp at h
  | cons v rest ih =>
    intro c t a h
    unfold collect
    by_cases hv : v.Name ∈ c
    · simp [hv]
    · simp only [hv, if_false]
      apply ih
      intro hrest
      apply h
      refine ⟨?_, ?_⟩
      · intro s hs
        rcases List.mem_cons.mp hs with rfl | hs
        · exact hv
        · intro hmem
          exact hrest.1 s hs (List.mem_cons_of_mem _ hmem)
      · simp only [List.map_cons, List.nodup_cons]
        refine ⟨?_, hrest.2⟩
        intro hmem
        obtain ⟨s, hs, heq⟩ := List.mem_map.mp hmem
        exact hrest.1 s hs (by rw [heq]; exact List.mem_cons_self _ _)

/-- When `NewRing` returns a ring, the names are pairwise distinct, the table is
the sorter's rearrangement of all virtual nodes, and the returned heap is the
result of the mode loop. -/
theorem NewRing_ok_inv (srt : SliceSort) (servers : List Memcached) (ring : Ring) (heap : Heap)
    (h : NewRing srt servers = .ok (ring, heap)) :
    (servers.map (fun s => s.Name)).Nodup ∧
    ring.Table = srt.run (allNodes 0 servers) ∧
    ring.Servers = List.range servers.length ∧
    assignModes ring.Table 0 ring.Table servers = .ok heap := by
  by_cases hnd : (servers.map (fun s => s.Name)).Nodup
  · have hc := collect_ok servers [] [] 0 (by simp) hnd
    unfold NewRing at h
    simp only [bind, Except.bind, pure, Except.pure, hc, List.nil_append] at h
    cases hm : assignModes (srt.run (allNodes 0 servers)) 0 (srt.run (allNodes 0 servers)) servers with
    | error f => rw [hm] at h; cases h
    | ok heap' =>
      rw [hm] at h
      simp only [Except.ok.injEq, Prod.mk.injEq] at h
      obtain ⟨hr, hh⟩ := h
      subst hr hh
      exact ⟨hnd, rfl, rfl, hm⟩
  · have hc := collect_conflict servers [] [] 0 (fun hh => hnd hh.2)
    unfold NewRing at h
    simp [bind, Except.bind, hc] at h

/-- C3: when two servers of the list have the same `Name`, `NewRing` returns no
ring and the error `ErrConflictName`. -/
theorem NewRing_conflict (srt : SliceSort) (servers : List Memcached)
    (hdup : ∃ (i j : Nat) (s s' : Memcached),
      i < j ∧ servers[i]? = some s ∧ servers[j]? = some s' ∧ s.Name = s'.Name) :
    NewRing srt servers = .error .ErrConflictName := by
  have hnd : ¬ (servers.map (fun s => s.Name)).Nodup := by
    intro hnd
    obtain ⟨i, j, s, s', hij, hi, hj, heq⟩ := hdup
    obtain ⟨hil, his⟩ := List.getElem?_eq_some.mp hi
    obtain ⟨hjl, hjs⟩ := List.getElem?_eq_some.mp hj
    have := (List.pairwise_iff_getElem.mp hnd) i j (by simpa using hil) (by simpa using hjl) hij
    simp only [List.getElem_map] at this
    rw [his, hjs] at this
    exact this heq
  have hc := collect_conflict servers [] [] 0 (fun hh => hnd hh.2)
  unfold NewRing
  simp [bind, Except.bind, hc]

theorem NewRing_conflict_witness :
    (∃ (i j : Nat) (s s' : Memcached),
      i < j ∧ [named "a", named "b", named "a"][i]? = some s ∧
      [named "a", named "b", named "a"][j]? = some s' ∧ s.Name = s'.Name) ∧
    NewRing insertionSlice [named "a", named "b", named "a"] = .error .ErrConflictName :=
  ⟨⟨0, 2, named "a", named "a", by decide, by decide, by decide, rfl⟩,
    NewRing_conflict insertionSlice [named "a", named "b", named "a"]
      ⟨0, 2, named "a", named "a", by decide, by decide, by decide, rfl⟩⟩

theorem length_vnodes (name : String) (a : Nat) : (vnodes name a).length = 100 := by
  simp [vnodes]

theorem server_of_mem_vnodes (name : String) (a : Nat) (n : node) (h : n ∈ vnodes name a) :
    n.Server = a := by
  unfold vnodes at h
  obtain ⟨i, _, hi⟩ := List.mem_map.mp h
  rw [← hi]

theorem length_allNodes : ∀ (l : List Memcached) (a : Nat),
    (allNodes a l).length = 100 * l.length := by
  intro l
  induction l with
  | nil => intro a; simp [allNodes]
  | cons v rest ih =>
    intro a
    simp only [allNodes, List.length_append, length_vnodes, ih, List.length_cons]
    omega

theorem server_of_mem_allNodes : ∀ (l : List Memcached) (a : Nat) (n : node),
    n ∈ allNodes a l → a ≤ n.Server ∧ n.Server < a + l.length := by
  intro l
  induction l with
  | nil => intro a n h; simp [allNodes] at h
  | cons v rest ih =>
    intro a n h
    simp only [allNodes, List.mem_append] at h
    rcases h with h | h
    · have := server_of_mem_vnodes _ _ _ h
      simp only [List.length_cons]
      omega
    · have := ih (a + 1) n h
      simp only [List.length_cons]
      omega

theorem filter_vnodes_self (name : String) (a : Nat) :
    (vnodes name a).filter (fun n => decide (n.Server = a)) = vnodes name a := by
  rw [List.filter_eq_self]
  intro n hn
  simp [server_of_mem_vnodes _ _ _ hn]

theorem filter_allNodes_of_lt : ∀ (l : List Memcached) (a p : Nat), p < a →
    (allNodes a l).filter (fun n => decide (n.Server = p)) = [] := by
  intro l a p hp
  rw [List.filter_eq_nil_iff]
  intro n hn
  have := server_of_mem_allNodes l a n hn
  simp
  omega

/-- The entries of the collected table that reference the server at address
`a + j` are its 100 virtual nodes. -/
theorem filter_allNodes : ∀ (l : List Memcached) (a j : Nat) (s : Memcached),
    l[j]? = some s →
    (allNodes a l).filter (fun n => decide (n.Server = a + j)) = vnodes s.Name (a + j) := by
  intro l
  induction l with
  | nil => intro a j s h; simp at h
  | cons v rest ih =>
    intro a j s h
    simp only [allNodes, List.filter_append]
    cases j with
    | zero =>
      simp only [List.getElem?_cons_zero, Option.some.injEq] at h
      subst h
      simp only [Nat.add_zero]
      rw [filter_vnodes_self, filter_allNodes_of_lt rest (a + 1) a (by omega)]
      simp
    | succ j =>
      simp only [List.getElem?_cons_succ] at h
      have h1 : (vnodes v.Name a).filter (fun n => decide (n.Server = a + (j + 1))) = [] := by
        rw [List.filter_eq_nil_iff]
        intro n hn
        have := server_of_mem_vnodes _ _ _ hn
        simp
        omega
      have h2 := ih (a + 1) j s h
      have h3 : a + 1 + j = a + (j + 1) := by omega
      rw [h3] at h2
      rw [h1, h2]
      simp

/-- C4: when `NewRing` returns a ring for a non-empty list of servers (their
names are then pairwise distinct), the table has `100 * len(servers)` entries, exactly 100
of which reference each server; the hashes of the entries that reference the
server `s` are, up to order, `CRC32-IEEE(s.Name ++ "-" ++ i)` for
`i = 0..99` with `i` in unpadded decimal; and the table is sorted ascending by
hash. -/
theorem NewRing_table (srt : SliceSort) (servers : List Memcached) (ring : Ring) (heap : Heap)
    (hne : servers ≠ []) (h : NewRing srt servers = .ok (ring, heap)) :
    (servers.map (fun s => s.Name)).Nodup ∧
    ring.Table.length = 100 * servers.length ∧
    (∀ (p : Nat) (s : Memcached), servers[p]? = some s →
      (ring.Table.filter (fun n => decide (n.Server = p))).length = 100 ∧
      ((ring.Table.filter (fun n => decide (n.Server = p))).map (fun n => n.Hash)).Perm
        ((List.range 100).map
          (fun i => ChecksumIEEE (bytesOf (s.Name ++ "-" ++ toString i))))) ∧
    (∀ n ∈ ring.Table, n.Server < servers.length) ∧
    ring.Table.Pairwise (fun a b => a.Hash ≤ b.Hash) ∧
    ring.Table ≠ [] := by
  obtain ⟨hnd, ht, _, _⟩ := NewRing_ok_inv srt servers ring heap h
  have hperm : ring.Table.Perm (allNodes 0 servers) := by rw [ht]; exact srt.perm _
  have hlen : ring.Table.length = 100 * servers.length := by
    rw [hperm.length_eq, length_allNodes]
  refine ⟨hnd, hlen, ?_, ?_, ?_, ?_⟩
  · intro p s hp
    have hf := (hperm.filter (fun n => decide (n.Server = p)))
    have hv := filter_allNodes servers 0 p s hp
    simp only [Nat.zero_add] at hv
    rw [hv] at hf
    refine ⟨?_, ?_⟩
    · rw [hf.length_eq, length_vnodes]
    · have hm := hf.map (fun n => n.Hash)
      have hvm : (vnodes s.Name p).map (fun n => n.Hash) =
          (List.range 100).map
            (fun i => ChecksumIEEE (bytesOf (s.Name ++ "-" ++ toString i))) := by
        simp [vnodes, Function.comp_def]
      rw [hvm] at hm
      exact hm
  · intro n hn
    have := server_of_mem_allNodes servers 0 n (hperm.mem_iff.mp hn)
    omega
  · rw [ht]; exact srt.sorted _
  · intro hnil
    rw [hnil] at hlen
    have : 0 < servers.length := List.length_pos.mpr hne
    simp only [List.length_nil] at hlen
    omega

/-! ## `NewRing`: the mode loop -/

theorem deref_of_getElem? (heap : Heap) (p : Nat) (S : Memcached) (h : heap[p]? = some S) :
    deref heap p = .ok S := by
  simp [deref, h]

theorem getElem?_of_deref (heap : Heap) (p : Nat) (S : Memcached) (h : deref heap p = .ok S) :
    heap[p]? = some S := by
  unfold deref at h
  cases hp : heap[p]? with
  | none => rw [hp] at h; cases h
  | some x => rw [hp] at h; cases h; rfl

theorem setMode_of_getElem? (heap : Heap) (p : Nat) (S : Memcached) (mode : Mode)
    (h : heap[p]? = some S) :
    setMode heap p mode = .ok (heap.set p { S with Mode := mode }) := by
  simp [setMode, bind, Except.bind, pure, Except.pure, deref_of_getElem? heap p S h]

theorem index_succ_ok {α : Type} (xs : List α) (i : Nat) (x : α)
    (h : index xs ((i : Int) + 1) = .ok x) : xs[i + 1]? = some x := by
  have hc : ((i : Int) + 1) = ((i + 1 : Nat) : Int) := by push_cast; rfl
  rw [hc, index_natCast] at h
  cases hx : xs[i + 1]? with
  | none => rw [hx] at h; cases h
  | some y => rw [hx] at h; cases h; rfl

theorem linkNext_post (t : List node) (i : Nat) (v : node) (heap heap' : Heap) (S : Memcached)
    (hS : heap[v.Server]? = some S) (h : linkNext t i v heap = .ok heap') :
    ∃ q, t[i + 1]? = some q ∧ heap' = heap.set v.Server { S with next := some q.Server } := by
  unfold linkNext at h
  cases hq : index t ((i : Int) + 1) with
  | error f => simp [bind, Except.bind, hq] at h
  | ok q =>
    refine ⟨q, index_succ_ok t i q hq, ?_⟩
    simp only [bind, Except.bind, hq, setNext, deref_of_getElem? heap _ S hS, pure,
      Except.pure, Except.ok.injEq] at h
    exact h.symm

theorem linkDup_post (t : List node) (i : Nat) (v : node) (heap heap' : Heap) (S : Memcached)
    (mode : Mode) (hS : heap[v.Server]? = some S) (h : linkDup t i v heap mode = .ok heap') :
    ∃ q Q, t[i + 1]? = some q ∧ heap[q.Server]? = some Q ∧
      heap' = ((heap ++ [Q]).set v.Server { S with next := some heap.length }).set heap.length
        { Q with Mode := mode } := by
  unfold linkDup at h
  cases hq : index t ((i : Int) + 1) with
  | error f => simp [bind, Except.bind, hq] at h
  | ok q =>
    cases hQ : heap[q.Server]? with
    | none =>
      simp [bind, Except.bind, hq, Dup, deref, hQ] at h
    | some Q =>
      refine ⟨q, Q, index_succ_ok t i q hq, hQ, ?_⟩
      have hlt : v.Server < heap.length := (List.getElem?_eq_some.mp hS).1
      have h1 : (heap ++ [Q])[v.Server]? = some S := by
        rw [List.getElem?_append_left hlt]; exact hS
      have h2 : ((heap ++ [Q]).set v.Server { S with next := some heap.length })[v.Server]?
          = some { S with next := some heap.length } := by
        rw [List.getElem?_set_self (by simp; omega)]
      have h3 : ((heap ++ [Q]).set v.Server { S with next := some heap.length })[heap.length]?
          = some Q := by
        rw [List.getElem?_set_ne (by omega)]
        simp
      simp only [bind, Except.bind, hq, Dup, deref_of_getElem? heap _ Q hQ, pure, Except.pure,
        setNext, deref_of_getElem? _ _ S h1, deref_of_getElem? _ _ _ h2, setMode,
        deref_of_getElem? _ _ Q h3, Except.ok.injEq] at h
      exact h.symm

/-- The heap after one pass of the mode loop, by kind of sibling. -/
theorem assign_shape (t : List node) (i : Nat) (v : node) (heap heap' : Heap) (S0 : Memcached)
    (hS0 : heap[v.Server]? = some S0) (ha : assign t i v heap = .ok heap') :
    match tableSibling S0.Status S0.Phase with
    | .absent => heap' = heap.set v.Server { S0 with Mode := tableMode S0.Status S0.Phase }
    | .itself => ∃ q, t[i + 1]? = some q ∧
        heap' = (heap.set v.Server { S0 with Mode := tableMode S0.Status S0.Phase }).set v.Server
          { S0 with Mode := tableMode S0.Status S0.Phase, next := some q.Server }
    | .duplicated m => ∃ q Q, t[i + 1]? = some q ∧
        (heap.set v.Server { S0 with Mode := tableMode S0.Status S0.Phase })[q.Server]? = some Q ∧
        heap' = (((heap.set v.Server { S0 with Mode := tableMode S0.Status S0.Phase }) ++ [Q]).set
          v.Server { S0 with Mode := tableMode S0.Status S0.Phase, next := some heap.length }).set
          heap.length { Q with Mode := m } := by
  have hlt : v.Server < heap.length := (List.getElem?_eq_some.mp hS0).1
  have hset : ∀ S : Memcached, (heap.set v.Server S)[v.Server]? = some S := by
    intro S
    rw [List.getElem?_set_self hlt]
  unfold assign at ha
  simp only [bind, Except.bind, deref_of_getElem? heap _ S0 hS0] at ha
  obtain ⟨nm, host, port, st, ph, md, cl, hsh, nx⟩ := S0
  cases st <;> cases ph <;>
    simp only [tableSibling, tableMode] <;>
    simp only [setMode_of_getElem? heap _ _ _ hS0] at ha
  case StatusNormal.PhaseDeleteOnly | StatusNormal.PhaseWriteOnly | StatusNormal.PhaseReadWrite =>
    cases ha; rfl
  case StatusAdding.PhaseDeleteOnly | StatusAdding.PhaseWriteOnly =>
    exact linkNext_post t i v _ heap' _ (hset _) ha
  case StatusAdding.PhaseReadWrite | StatusDeleting.PhaseDeleteOnly |
      StatusDeleting.PhaseWriteOnly | StatusDeleting.PhaseReadWrite =>
    have := linkDup_post t i v _ heap' _ _ (hset _) ha
    simpa using this

theorem sameBackend_refl (a : Memcached) : sameBackend a a :=
  ⟨rfl, rfl, rfl, rfl, rfl, rfl, rfl⟩

theorem sameBackend_trans {a b c : Memcached} (h1 : sameBackend a b) (h2 : sameBackend b c) :
    sameBackend a c := by
  obtain ⟨a1, a2, a3, a4, a5, a6, a7⟩ := h1
  obtain ⟨b1, b2, b3, b4, b5, b6, b7⟩ := h2
  exact ⟨a1.trans b1, a2.trans b2, a3.trans b3, a4.trans b4, a5.trans b5, a6.trans b6,
    a7.trans b7⟩

/-- What one pass of the mode loop does to the heap. -/
theorem assign_post (t : List node) (i : Nat) (v : node) (heap heap' : Heap) (S0 : Memcached)
    (hS0 : heap[v.Server]? = some S0) (ha : assign t i v heap = .ok heap') :
    heap.length ≤ heap'.length ∧
    (∀ a, a ≠ v.Server → a < heap.length → heap'[a]? = heap[a]?) ∧
    ∃ S', heap'[v.Server]? = some S' ∧ sameBackend S0 S' ∧
      S'.Mode = tableMode S0.Status S0.Phase ∧
      match tableSibling S0.Status S0.Phase with
      | .absent => S'.next = S0.next
      | .itself => ∃ q, t[i + 1]? = some q ∧ S'.next = some q.Server
      | .duplicated m => ∃ q Q D, t[i + 1]? = some q ∧ heap[q.Server]? = some Q ∧
          S'.next = some heap.length ∧ heap'[heap.length]? = some D ∧ sameBackend Q D ∧
          D.Mode = m := by
  have hlt : v.Server < heap.length := (List.getElem?_eq_some.mp hS0).1
  have hshape := assign_shape t i v heap heap' S0 hS0 ha
  cases hsib : tableSibling S0.Status S0.Phase with
  | absent =>
    rw [hsib] at hshape
    simp only at hshape
    subst hshape
    refine ⟨by simp, ?_, _, List.getElem?_set_self hlt, sameBackend_refl _, rfl, rfl⟩
    intro a ha' _
    rw [List.getElem?_set_ne (Ne.symm ha')]
  | itself =>
    rw [hsib] at hshape
    simp only at hshape
    obtain ⟨q, hq, hh⟩ := hshape
    subst hh
    refine ⟨by simp, ?_, _, List.getElem?_set_self (by simpa using hlt), sameBackend_refl _,
      rfl, q, hq, rfl⟩
    intro a ha' _
    rw [List.getElem?_set_ne (Ne.symm ha'), List.getElem?_set_ne (Ne.symm ha')]
  | duplicated m =>
    rw [hsib] at hshape
    simp only at hshape
    obtain ⟨q, Q, hq, hQ, hh⟩ := hshape
    subst hh
    have hQ' : ∃ Q', heap[q.Server]? = some Q' ∧ sameBackend Q' Q := by
      by_cases hqs : q.Server = v.Server
      · rw [hqs, List.getElem?_set_self hlt] at hQ
        cases hQ
        exact ⟨S0, by rw [hqs]; exact hS0, sameBackend_refl _⟩
      · rw [List.getElem?_set_ne (Ne.symm hqs)] at hQ
        exact ⟨Q, hQ, sameBackend_refl _⟩
    obtain ⟨Q', hQ'1, hQ'2⟩ := hQ'
    have h1 : ∀ a, a ≠ v.Server → a < heap.length →
        ((((heap.set v.Server { S0 with Mode := tableMode S0.Status S0.Phase }) ++ [Q]).set
          v.Server { S0 with Mode := tableMode S0.Status S0.Phase, next := some heap.length }).set
          heap.length { Q with Mode := m })[a]? = heap[a]? := by
      intro a ha' hal
      rw [List.getElem?_set_ne (by omega), List.getElem?_set_ne (Ne.symm ha'),
        List.getElem?_append_left (by simpa using hal), List.getElem?_set_ne (Ne.symm ha')]
    have h2 : ((((heap.set v.Server { S0 with Mode := tableMode S0.Status S0.Phase }) ++ [Q]).set
          v.Server { S0 with Mode := tableMode S0.Status S0.Phase, next := some heap.length }).set
          heap.length { Q with Mode := m })[v.Server]? =
        some { S0 with Mode := tableMode S0.Status S0.Phase, next := some heap.length } := by
      rw [List.getElem?_set_ne (by omega), List.getElem?_set_self (by simp; omega)]
    have h3 : ((((heap.set v.Server { S0 with Mode := tableMode S0.Status S0.Phase }) ++ [Q]).set
          v.Server { S0 with Mode := tableMode S0.Status S0.Phase, next := some heap.length }).set
          heap.length { Q with Mode := m })[heap.length]? = some { Q with Mode := m } := by
      rw [List.getElem?_set_self (by simp)]
    exact ⟨by simp, h1, _, h2, ⟨rfl, rfl, rfl, rfl, rfl, rfl, rfl⟩, rfl, q, Q', _, hq, hQ'1, rfl,
      h3, hQ'2, rfl⟩

theorem lastBefore_or_none (t : List node) (p : Nat) : ∀ i,
    (∀ j n, j < i → t[j]? = some n → n.Server ≠ p) ∨ ∃ k, LastBefore t i p k := by
  intro i
  induction i with
  | zero => left; intro j n hj; omega
  | succ i ih =>
    by_cases hi : ∃ n, t[i]? = some n ∧ n.Server = p
    · right
      exact ⟨i, by omega, hi, fun j n h1 h2 => by omega⟩
    · rcases ih with hnone | ⟨k, hk, hkn, hkb⟩
      · left
        intro j n hj hjn hp
        by_cases hji : j = i
        · subst hji; exact hi ⟨n, hjn, hp⟩
        · exact hnone j n (by omega) hjn hp
      · right
        refine ⟨k, by omega, hkn, ?_⟩
        intro j n hkj hji hjn hp
        by_cases hji' : j = i
        · subst hji'; exact hi ⟨n, hjn, hp⟩
        · exact hkb j n hkj (by omega) hjn hp

/-- One pass of the mode loop keeps the invariant. -/
theorem assign_planned (t : List node) (servers : List Memcached)
    (hsrv : ∀ n ∈ t, n.Server < servers.length) (i : Nat) (v : node) (heap heap' : Heap)
    (hv : t[i]? = some v) (hinv : Planned t servers i heap)
    (ha : assign t i v heap = .ok heap') : Planned t servers (i + 1) heap' := by
  obtain ⟨hlen, hall⟩ := hinv
  have hvlt : v.Server < servers.length := hsrv v (List.mem_iff_getElem?.mpr ⟨i, hv⟩)
  obtain ⟨S0, hS0, hsame0, hnone0, hlast0⟩ :=
    hall v.Server servers[v.Server] (List.getElem?_eq_getElem hvlt)
  obtain ⟨hlen', hother, S', hS', hsame', hmode', hsib'⟩ :=
    assign_post t i v heap heap' S0 hS0 ha
  refine ⟨by omega, ?_⟩
  intro p s hp
  by_cases hpv : p = v.Server
  · subst hpv
    have hs : servers[v.Server] = s := by
      rw [List.getElem?_eq_getElem hvlt] at hp
      cases hp
      rfl
    subst hs
    refine ⟨S', hS', sameBackend_trans hsame0 hsame', ?_, ?_⟩
    · intro hno
      exact absurd rfl (hno i v (by omega) hv)
    · intro k hk
      have hki : k = i := by
        obtain ⟨hk1, _, hk3⟩ := hk
        by_contra hne
        exact hk3 i v (by omega) (by omega) hv rfl
      subst hki
      have hst : S0.Status = (servers[v.Server]).Status := hsame0.2.2.2.1.symm
      have hph : S0.Phase = (servers[v.Server]).Phase := hsame0.2.2.2.2.1.symm
      rw [hst, hph] at hmode' hsib'
      refine ⟨hmode', ?_⟩
      unfold Linked
      cases hsib : tableSibling (servers[v.Server]).Status (servers[v.Server]).Phase with
      | absent =>
        rw [hsib] at hsib'
        simp only at hsib' ⊢
        rw [hsib']
        rcases lastBefore_or_none t v.Server k with hno | ⟨k', hk'⟩
        · exact (hnone0 hno).2
        · have := (hlast0 k' hk').2
          unfold Linked at this
          rw [hsib] at this
          exact this
      | itself =>
        rw [hsib] at hsib'
        exact hsib'
      | duplicated m =>
        rw [hsib] at hsib'
        simp only at hsib' ⊢
        obtain ⟨q, Q, D, hq, hQ, hnext, hD, hQD, hDm⟩ := hsib'
        have hqlt := hsrv q (List.mem_iff_getElem?.mpr ⟨k + 1, hq⟩)
        obtain ⟨SQ, hSQ, hsameQ, _, _⟩ :=
          hall q.Server servers[q.Server] (List.getElem?_eq_getElem hqlt)
        rw [hSQ] at hQ
        cases hQ
        exact ⟨q, servers[q.Server], heap.length, D, hq, List.getElem?_eq_getElem hqlt, hnext,
          hlen, hD, sameBackend_trans hsameQ hQD, hDm⟩
  · obtain ⟨S, hS, hsame, hnone, hlast⟩ := hall p s hp
    have hplt : p < servers.length := (List.getElem?_eq_some.mp hp).1
    refine ⟨S, by rw [hother p hpv (by omega)]; exact hS, hsame, ?_, ?_⟩
    · intro hno
      exact hnone (fun j n hj => hno j n (by omega))
    · intro k hk
      have hk' : LastBefore t i p k := by
        obtain ⟨hk1, ⟨n, hn1, hn2⟩, hk3⟩ := hk
        have hki : k ≠ i := by
          intro hki
          subst hki
          rw [hv] at hn1
          cases hn1
          exact hpv hn2.symm
        exact ⟨by omega, ⟨n, hn1, hn2⟩, fun j n' h1 h2 => hk3 j n' h1 (by omega)⟩
      obtain ⟨hm, hl⟩ := hlast k hk'
      refine ⟨hm, ?_⟩
      unfold Linked at hl ⊢
      cases hsib : tableSibling s.Status s.Phase with
      | absent => rw [hsib] at hl; exact hl
      | itself => rw [hsib] at hl; exact hl
      | duplicated m =>
        rw [hsib] at hl
        simp only at hl ⊢
        obtain ⟨q, Q0, d, D, hq, hQ0, hnext, hd, hD, hQD, hDm⟩ := hl
        have hdlt : d < heap.length := (List.getElem?_eq_some.mp hD).1
        exact ⟨q, Q0, d, D, hq, hQ0, hnext, hd, by rw [hother d (by omega) hdlt]; exact hD,
          hQD, hDm⟩

/-- The mode loop, run from slot `i` to the end, establishes the invariant for
the whole table. -/
theorem assignModes_planned (t : List node) (servers : List Memcached)
    (hsrv : ∀ n ∈ t, n.Server < servers.length) :
    ∀ (rest : List node) (i : Nat) (heap heap' : Heap),
      (∀ j, rest[j]? = t[i + j]?) → i + rest.length = t.length →
      Planned t servers i heap → assignModes t i rest heap = .ok heap' →
      Planned t servers t.length heap' := by
  intro rest
  induction rest with
  | nil =>
    intro i heap heap' _ hlen hinv h
    simp only [assignModes, Except.ok.injEq] at h
    subst h
    simp only [List.length_nil, Nat.add_zero] at hlen
    rw [← hlen]
    exact hinv
  | cons v rest ih =>
    intro i heap heap' hrest hlen hinv h
    unfold assignModes at h
    cases ha : assign t i v heap with
    | error f => rw [ha] at h; cases h
    | ok heap1 =>
      rw [ha] at h
      simp only at h
      have hv : t[i]? = some v := by
        have := hrest 0
        simpa using this.symm
      refine ih (i + 1) heap1 heap' ?_ ?_ (assign_planned t servers hsrv i v heap heap1 hv hinv ha) h
      · intro j
        have := hrest (j + 1)
        simp only [List.getElem?_cons_succ] at this
        rw [this]
        congr 1
        omega
      · simp only [List.length_cons] at hlen
        omega

theorem planned_init (t : List node) (servers : List Memcached) : Planned t servers 0 servers := by
  refine ⟨Nat.le_refl _, ?_⟩
  intro p s hp
  refine ⟨s, hp, sameBackend_refl s, fun _ => ⟨rfl, rfl⟩, ?_⟩
  intro k hk
  have := hk.1
  omega

/-- Every server of the list owns a slot of the table, and every slot belongs
to a server of the list. -/
theorem NewRing_slots (srt : SliceSort) (servers : List Memcached) (ring : Ring) (heap : Heap)
    (h : NewRing srt servers = .ok (ring, heap)) :
    (∀ n ∈ ring.Table, n.Server < servers.length) ∧
    (∀ p, p < servers.length → ∃ n ∈ ring.Table, n.Server = p) := by
  obtain ⟨_, ht, _, _⟩ := NewRing_ok_inv srt servers ring heap h
  have hperm : ring.Table.Perm (allNodes 0 servers) := by rw [ht]; exact srt.perm _
  refine ⟨?_, ?_⟩
  · intro n hn
    have := server_of_mem_allNodes servers 0 n (hperm.mem_iff.mp hn)
    omega
  · intro p hp
    have hv := filter_allNodes servers 0 p servers[p] (List.getElem?_eq_getElem hp)
    simp only [Nat.zero_add] at hv
    have hmem : (⟨ChecksumIEEE (bytesOf ((servers[p]).Name ++ "-" ++ toString 0)), p⟩ : node)
        ∈ vnodes (servers[p]).Name p := by
      unfold vnodes
      exact List.mem_map.mpr ⟨0, by simp, rfl⟩
    rw [← hv] at hmem
    have hmem' := (List.mem_filter.mp hmem).1
    exact ⟨_, hperm.mem_iff.mpr hmem', rfl⟩

/-- The invariant of the mode loop holds of the heap that `NewRing` returns. -/
theorem NewRing_planned (srt : SliceSort) (servers : List Memcached) (ring : Ring) (heap : Heap)
    (h : NewRing srt servers = .ok (ring, heap)) :
    Planned ring.Table servers ring.Table.length heap := by
  obtain ⟨_, _, _, hm⟩ := NewRing_ok_inv srt servers ring heap h
  exact assignModes_planned ring.Table servers (NewRing_slots srt servers ring heap h).1
    ring.Table 0 servers heap (fun j => by simp) (by simp) (planned_init _ _) hm

/-- The state of every server of the list in the heap that `NewRing` returns:
the mode of the planner table, and the link left by the pass at its last slot. -/
theorem NewRing_final (srt : SliceSort) (servers : List Memcached) (ring : Ring) (heap : Heap)
    (h : NewRing srt servers = .ok (ring, heap)) (p : Nat) (s : Memcached)
    (hp : servers[p]? = some s) :
    ∃ S k, heap[p]? = some S ∧ sameBackend s S ∧ S.Mode = tableMode s.Status s.Phase ∧
      LastSlot ring.Table p k ∧ Linked ring.Table servers heap s S k := by
  obtain ⟨_, hall⟩ := NewRing_planned srt servers ring heap h
  obtain ⟨S, hS, hsame, _, hlast⟩ := hall p s hp
  have hplt : p < servers.length := (List.getElem?_eq_some.mp hp).1
  obtain ⟨n, hn, hnp⟩ := (NewRing_slots srt servers ring heap h).2 p hplt
  obtain ⟨j, hj⟩ := List.mem_iff_getElem?.mp hn
  rcases lastBefore_or_none ring.Table p ring.Table.length with hno | ⟨k, hk⟩
  · exact absurd hnp (hno j n (List.getElem?_eq_some.mp hj).1 hj)
  · obtain ⟨hm, hl⟩ := hlast k hk
    refine ⟨S, k, hS, hsame, hm, ⟨hk.2.1, ?_⟩, hl⟩
    intro j' n' hkj hj'
    exact hk.2.2 j' n' hkj (List.getElem?_eq_some.mp hj').1 hj'

/-- C5: when `NewRing` returns a ring for freshly constructed servers (`next`
unset), the object of every server `s` of the list keeps its identity and has
the mode and the sibling of the planner table: Normal gives ReadWrite and a nil
`next`; Adding/DeleteOnly gives DeleteOnly and Adding/WriteOnly gives WriteOnly,
the sibling being the backend of the next slot itself, its mode its own;
Adding/ReadWrite gives ReadWrite and a duplicate forced to WriteOnly;
Deleting/DeleteOnly gives ReadWrite and a duplicate forced to DeleteOnly;
Deleting/WriteOnly gives ReadWrite and a duplicate forced to WriteOnly;
Deleting/ReadWrite gives WriteOnly and a duplicate forced to ReadWrite. A
duplicate is a new object outside the list, so that forcing its mode leaves the
original sibling with the mode of its own row. -/
theorem NewRing_planner_table (srt : SliceSort) (servers : List Memcached) (ring : Ring)
    (heap : Heap) (hfresh : ∀ s ∈ servers, s.next = none)
    (h : NewRing srt servers = .ok (ring, heap)) :
    ∀ (p : Nat) (s : Memcached), servers[p]? = some s →
      ∃ S, heap[p]? = some S ∧ sameBackend s S ∧
        (s.Status = StatusNormal → S.Mode = ModeReadWrite ∧ S.next = none) ∧
        (s.Status = StatusAdding → s.Phase = PhaseDeleteOnly →
          S.Mode = ModeDeleteOnly ∧ SiblingItself ring servers heap p S) ∧
        (s.Status = StatusAdding → s.Phase = PhaseWriteOnly →
          S.Mode = ModeWriteOnly ∧ SiblingItself ring servers heap p S) ∧
        (s.Status = StatusAdding → s.Phase = PhaseReadWrite →
          S.Mode = ModeReadWrite ∧ SiblingDuplicated ring servers heap p S ModeWriteOnly) ∧
        (s.Status = StatusDeleting → s.Phase = PhaseDeleteOnly →
          S.Mode = ModeReadWrite ∧ SiblingDuplicated ring servers heap p S ModeDeleteOnly) ∧
        (s.Status = StatusDeleting → s.Phase = PhaseWriteOnly →
          S.Mode = ModeReadWrite ∧ SiblingDuplicated ring servers heap p S ModeWriteOnly) ∧
        (s.Status = StatusDeleting → s.Phase = PhaseReadWrite →
          S.Mode = ModeWriteOnly ∧ SiblingDuplicated ring servers heap p S ModeReadWrite) := by
  intro p s hp
  obtain ⟨S, k, hS, hsame, hmode, hk, hlink⟩ := NewRing_final srt servers ring heap h p s hp
  have hslots := (NewRing_slots srt servers ring heap h).1
  have hitself : tableSibling s.Status s.Phase = .itself → SiblingItself ring servers heap p S := by
    intro hsib
    unfold Linked at hlink
    rw [hsib] at hlink
    obtain ⟨q, hq, hnext⟩ := hlink
    have hqlt := hslots q (List.mem_iff_getElem?.mpr ⟨k + 1, hq⟩)
    obtain ⟨Q, _, hQ, _, hQm, _, _⟩ := NewRing_final srt servers ring heap h q.Server
      servers[q.Server] (List.getElem?_eq_getElem hqlt)
    exact ⟨k, q, servers[q.Server], Q, hk, hq, hnext, List.getElem?_eq_getElem hqlt, hQ, hQm⟩
  have hdup : ∀ m, tableSibling s.Status s.Phase = .duplicated m →
      SiblingDuplicated ring servers heap p S m := by
    intro m hsib
    unfold Linked at hlink
    rw [hsib] at hlink
    obtain ⟨q, Q0, d, D, hq, hQ0, hnext, hd, hD, hQD, hDm⟩ := hlink
    obtain ⟨Q, _, hQ, _, hQm, _, _⟩ := NewRing_final srt servers ring heap h q.Server Q0 hQ0
    exact ⟨k, q, Q0, Q, d, D, hk, hq, hQ0, hnext, hd, hD, hQD, hDm, hQ, hQm⟩
  refine ⟨S, hS, hsame, ?_, ?_, ?_, ?_, ?_, ?_, ?_⟩
  · intro hst
    rw [hst] at hmode
    unfold Linked at hlink
    rw [hst] at hlink
    refine ⟨by simpa [tableMode] using hmode, ?_⟩
    have hn := hfresh s (List.mem_iff_getElem?.mpr ⟨p, hp⟩)
    simp only [tableSibling] at hlink
    rw [hlink, hn]
  all_goals
    intro hst hph
    rw [hst, hph] at hmode hitself hdup
    first
      | exact ⟨hmode, hitself rfl⟩
      | exact ⟨hmode, hdup _ rfl⟩

/-! ## A ring with two servers being added -/

set_option maxRecDepth 100000 in
theorem summary_migrating :
    summary (NewRing insertionSlice migrating) =
      some ([some (ModeWriteOnly, some 2), some (ModeWriteOnly, some 0),
        some (ModeReadWrite, none)], some 1) := by
  decide!

/-- `NewRing` returns a ring for `migrating`; in the heap it leaves, the server
m2 (address 1) is in WriteOnly mode and its sibling is m1 (address 0), itself
in WriteOnly mode; `Pick` sends the key "key" to m2. -/
theorem migrating_run :
    ∃ ring heap, NewRing insertionSlice migrating = .ok (ring, heap) ∧
      (∃ S, heap[0]? = some S ∧ S.Mode = ModeWriteOnly ∧ S.next = some 2) ∧
      (∃ S, heap[1]? = some S ∧ S.Mode = ModeWriteOnly ∧ S.next = some 0) ∧
      (∃ S, heap[2]? = some S ∧ S.Mode = ModeReadWrite ∧ S.next = none) ∧
      Ring.Pick ring (bytesOf "key") = .ok 1 := by
  have hsum := summary_migrating
  cases hrun : NewRing insertionSlice migrating with
  | error f => rw [hrun] at hsum; simp [summary] at hsum
  | ok rh =>
    obtain ⟨ring, heap⟩ := rh
    rw [hrun] at hsum
    simp only [summary, Option.some.injEq, Prod.mk.injEq, List.cons.injEq, and_true] at hsum
    obtain ⟨⟨h0, h1, h2⟩, hfind⟩ := hsum
    have hget : ∀ (a : Nat) (m : Mode) (nx : Option Nat),
        heap[a]?.map (fun S => (S.Mode, S.next)) = some (m, nx) →
        ∃ S, heap[a]? = some S ∧ S.Mode = m ∧ S.next = nx := by
      intro a m nx ha
      cases hS : heap[a]? with
      | none => rw [hS] at ha; simp at ha
      | some S =>
        rw [hS] at ha
        simp only [Option.map_some', Option.some.injEq, Prod.mk.injEq] at ha
        exact ⟨S, rfl, ha.1, ha.2⟩
    refine ⟨ring, heap, rfl, hget 0 _ _ h0, hget 1 _ _ h1, hget 2 _ _ h2, ?_⟩
    obtain ⟨_, ht, _, _⟩ := NewRing_ok_inv insertionSlice migrating ring heap hrun
    have hsorted : ring.Table.Pairwise (fun a b => a.Hash ≤ b.Hash) := by
      rw [ht]; exact insertionSlice.sorted _
    have hne : ring.Table ≠ [] := by
      intro hnil
      rw [hnil] at hfind
      simp at hfind
    rw [Pick_eq_find ring (bytesOf "key") hne hsorted]
    cases hf : ring.Table.find? (fun n => decide (ChecksumIEEE (bytesOf "key") < n.Hash)) with
    | none =>
      rw [hf] at hfind
      simp only [List.head?_eq_head hne, Option.map_some', Option.some.injEq] at hfind
      simp only [hfind]
    | some n =>
      rw [hf] at hfind
      simp only [Option.some.injEq] at hfind
      simp only [hfind]

theorem NewRing_table_witness :
    migrating ≠ [] ∧
    ∃ ring heap, NewRing insertionSlice migrating = .ok (ring, heap) ∧
      ring.Table.length = 100 * migrating.length ∧
      ring.Table.Pairwise (fun a b => a.Hash ≤ b.Hash) := by
  obtain ⟨ring, heap, h, _⟩ := migrating_run
  have hall := NewRing_table insertionSlice migrating ring heap (by decide) h
  exact ⟨by decide, ring, heap, h, hall.2.1, hall.2.2.2.2.1⟩

/-! ## Rings with duplicated siblings -/

/-- A run with an outline returned a ring. -/
theorem outline_returns (n : Nat) (run : Except Fault (Ring × Heap)) (v : Nat × List Outline)
    (h : outline n run = some v) : ∃ ring heap, run = .ok (ring, heap) := by
  cases run with
  | error f => simp [outline] at h
  | ok rh => exact ⟨rh.1, rh.2, rfl⟩

set_option maxRecDepth 100000 in
/-- `NewRing` returns a ring for `replacing` and allocates 200 duplicates, one
for each slot of m1 and m2. At the end m1 is in ReadWrite mode and its sibling
is a duplicate of m3 forced to WriteOnly; m2 is in WriteOnly mode and its
sibling is a duplicate of m1 forced to ReadWrite; m3 is in ReadWrite mode and
has no sibling. -/
theorem outline_replacing :
    outline 3 (NewRing insertionSlice replacing) =
      some (203,
        [{ mode := ModeReadWrite, sibling := some 202, siblingName := some "m3",
           siblingMode := some ModeWriteOnly },
         { mode := ModeWriteOnly, sibling := some 201, siblingName := some "m1",
           siblingMode := some ModeReadWrite },
         { mode := ModeReadWrite, sibling := none, siblingName := none, siblingMode := none }]) := by
  decide!

set_option maxRecDepth 100000 in
/-- `NewRing` returns a ring for `draining`: m1 and m2 are in ReadWrite mode,
the sibling of m1 is a duplicate of m3 forced to DeleteOnly, the sibling of m2
a duplicate of m1 forced to WriteOnly. -/
theorem outline_draining :
    outline 3 (NewRing insertionSlice draining) =
      some (203,
        [{ mode := ModeReadWrite, sibling := some 202, siblingName := some "m3",
           siblingMode := some ModeDeleteOnly },
         { mode := ModeReadWrite, sibling := some 201, siblingName := some "m1",
           siblingMode := some ModeWriteOnly },
         { mode := ModeReadWrite, sibling := none, siblingName := none, siblingMode := none }]) := by
  decide!

set_option maxRecDepth 100000 in
/-- `NewRing` returns a ring for `joining` and allocates nothing: b is in
DeleteOnly mode and its sibling is a itself, in ReadWrite mode. -/
theorem outline_joining :
    outline 2 (NewRing insertionSlice joining) =
      some (2,
        [{ mode := ModeReadWrite, sibling := none, siblingName := none, siblingMode := none },
         { mode := ModeDeleteOnly, sibling := some 0, siblingName := some "a",
           siblingMode := some ModeReadWrite }]) := by
  decide!

theorem NewRing_planner_table_witness :
    ((∀ s ∈ replacing, s.next = none) ∧
      ∃ ring heap, NewRing insertionSlice replacing = .ok (ring, heap) ∧
        (∃ S, heap[0]? = some S ∧ S.Mode = ModeReadWrite ∧
          SiblingDuplicated ring replacing heap 0 S ModeWriteOnly) ∧
        (∃ S, heap[1]? = some S ∧ S.Mode = ModeWriteOnly ∧
          SiblingDuplicated ring replacing heap 1 S ModeReadWrite) ∧
        (∃ S, heap[2]? = some S ∧ S.Mode = ModeReadWrite ∧ S.next = none)) ∧
    ((∀ s ∈ draining, s.next = none) ∧
      ∃ ring heap, NewRing insertionSlice draining = .ok (ring, heap) ∧
        (∃ S, heap[0]? = some S ∧ S.Mode = ModeReadWrite ∧
          SiblingDuplicated ring draining heap 0 S ModeDeleteOnly) ∧
        (∃ S, heap[1]? = some S ∧ S.Mode = ModeReadWrite ∧
          SiblingDuplicated ring draining heap 1 S ModeWriteOnly)) ∧
    ((∀ s ∈ joining, s.next = none) ∧
      ∃ ring heap, NewRing insertionSlice joining = .ok (ring, heap) ∧
        ∃ S, heap[1]? = some S ∧ S.Mode = ModeDeleteOnly ∧ SiblingItself ring joining heap 1 S) ∧
    ((∀ s ∈ migrating, s.next = none) ∧
      ∃ ring heap, NewRing insertionSlice migrating = .ok (ring, heap) ∧
        ∃ S, heap[0]? = some S ∧ S.Mode = ModeWriteOnly ∧
          SiblingItself ring migrating heap 0 S) := by
  refine ⟨⟨by decide, ?_⟩, ⟨by decide, ?_⟩, ⟨by decide, ?_⟩, ⟨by decide, ?_⟩⟩
  · obtain ⟨ring, heap, h⟩ := outline_returns _ _ _ outline_replacing
    have tbl := NewRing_planner_table insertionSlice replacing ring heap (by decide) h
    obtain ⟨S0, hS0, _, _, _, _, hrw, _⟩ := tbl 0 (fresh "m1" StatusAdding PhaseReadWrite 0) rfl
    obtain ⟨S1, hS1, _, _, _, _, _, _, _, hdrw⟩ :=
      tbl 1 (fresh "m2" StatusDeleting PhaseReadWrite 1) rfl
    obtain ⟨S2, hS2, _, hn, _⟩ := tbl 2 (fresh "m3" StatusNormal PhaseReadWrite 2) rfl
    exact ⟨ring, heap, h, ⟨S0, hS0, hrw rfl rfl⟩, ⟨S1, hS1, hdrw rfl rfl⟩, ⟨S2, hS2, hn rfl⟩⟩
  · obtain ⟨ring, heap, h⟩ := outline_returns _ _ _ outline_draining
    have tbl := NewRing_planner_table insertionSlice draining ring heap (by decide) h
    obtain ⟨S0, hS0, _, _, _, _, _, hdo, _⟩ :=
      tbl 0 (fresh "m1" StatusDeleting PhaseDeleteOnly 0) rfl
    obtain ⟨S1, hS1, _, _, _, _, _, _, hwo, _⟩ :=
      tbl 1 (fresh "m2" StatusDeleting PhaseWriteOnly 1) rfl
    exact ⟨ring, heap, h, ⟨S0, hS0, hdo rfl rfl⟩, ⟨S1, hS1, hwo rfl rfl⟩⟩
  · obtain ⟨ring, heap, h⟩ := outline_returns _ _ _ outline_joining
    obtain ⟨S, hS, _, _, hdo, _⟩ :=
      NewRing_planner_table insertionSlice joining ring heap (by decide) h 1
        (fresh "b" StatusAdding PhaseDeleteOnly 1) rfl
    exact ⟨ring, heap, h, S, hS, hdo rfl rfl⟩
  · obtain ⟨ring, heap, h, _⟩ := migrating_run
    obtain ⟨S, hS, _, _, _, hwo, _⟩ :=
      NewRing_planner_table insertionSlice migrating ring heap (by decide) h 0
        (fresh "m1" StatusAdding PhaseWriteOnly 0) rfl
    exact ⟨ring, heap, h, S, hS, hwo rfl rfl⟩

/-! ## `Memcached.Get` -/

/-- C6 fails on `migrating` (m1 and m2 being added in write-only phase, m3
normal): `NewRing` returns a ring, `Pick` sends the key "key" to m2, m2 is in
WriteOnly mode, its sibling m1 is in WriteOnly mode as well, and `Get` on m2
ends in `panic("unreachable")`, whatever the backends do. -/
theorem Get_reaches_unreachable :
    ∃ ring heap, NewRing insertionSlice migrating = .ok (ring, heap) ∧
      Ring.Pick ring (bytesOf "key") = .ok 1 ∧
      (∃ S N, heap[1]? = some S ∧ S.Mode ≠ ModeReadWrite ∧ S.next = some 0 ∧
        heap[0]? = some N ∧ N.Mode ≠ ModeReadWrite) ∧
      ∀ (env : Backend) (w : List Sent),
        Memcached.Get env heap w 1 (bytesOf "key") = (w, .panicked .panicUnreachable) := by
  obtain ⟨ring, heap, h, ⟨N, hN, hNm, _⟩, ⟨S, hS, hSm, hSn⟩, _, hpick⟩ := migrating_run
  refine ⟨ring, heap, h, hpick, ⟨S, N, hS, by rw [hSm]; decide, hSn, hN, by rw [hNm]; decide⟩, ?_⟩
  intro env w
  simp [Memcached.Get, deref, hS, hSm, hSn, hN, hNm]

theorem clientOf_some (heap : Heap) (a c : Nat) (S : Memcached) (hS : heap[a]? = some S)
    (hc : S.Client = some c) : clientOf heap (some a) = .ok c := by
  simp [clientOf, deref, hS, hc]

/-- C8: let `(primary, secondary) = m.PrimarySecondary()`, that is `(m, m.next)`
when `m.Mode == ReadWrite` and `(m.next, m)` otherwise, with the primary in
ReadWrite mode and `c` its client. Then `Get(key)` makes exactly one request,
`GetAsync(key)` on `c`, and returns what that call returns; no request is made
on any other client, the secondary's included. A `Get` that lands on a backend
in WriteOnly or DeleteOnly mode is thus served by the client of its sibling. -/
theorem Get_primary_only (env : Backend) (heap : Heap) (w : List Sent) (m : Nat)
    (key : List Nat) (M P : Memcached) (primary : Nat) (secondary : Option Nat) (c : Nat)
    (hM : heap[m]? = some M)
    (hps : PrimarySecondary heap m = .ok (some primary, secondary))
    (hP : heap[primary]? = some P) (hmode : P.Mode = ModeReadWrite)
    (hc : P.Client = some c) :
    (M.Mode = ModeReadWrite → primary = m ∧ secondary = M.next) ∧
    (M.Mode ≠ ModeReadWrite → M.next = some primary ∧ secondary = some m) ∧
    (Memcached.Get env heap w m key).1 = w ++ [{ client := c, call := .GetAsync key }] ∧
    (Memcached.Get env heap w m key).2 =
      .returned (callAsync env w c (.GetAsync key)).2.1 (callAsync env w c (.GetAsync key)).2.2 := by
  unfold PrimarySecondary at hps
  simp only [bind, Except.bind, deref_of_getElem? heap m M hM, pure, Except.pure] at hps
  by_cases hMm : M.Mode = ModeReadWrite
  · simp only [hMm, if_true, Except.ok.injEq, Prod.mk.injEq, Option.some.injEq] at hps
    obtain ⟨hpm, hsec⟩ := hps
    subst hpm
    refine ⟨fun _ => ⟨rfl, hsec.symm⟩, fun hne => absurd hMm hne, ?_, ?_⟩ <;>
    · unfold Memcached.Get
      simp only [deref_of_getElem? heap m M hM, hMm, ne_eq, not_true_eq_false, if_false,
        clientOf_some heap m c P hP hc]
      try (cases hwr : env.write (w ++ [{ client := c, call := .GetAsync key }]) <;>
        simp [callAsync, hwr])
  · simp only [hMm, if_false, Except.ok.injEq, Prod.mk.injEq] at hps
    obtain ⟨hnext, hsec⟩ := hps
    refine ⟨fun h => absurd h hMm, fun _ => ⟨hnext, hsec.symm⟩, ?_, ?_⟩ <;>
    · unfold Memcached.Get
      simp only [deref_of_getElem? heap m M hM, ne_eq, hMm, not_false_eq_true, if_true, hnext,
        deref_of_getElem? heap primary P hP, hmode, clientOf_some heap primary c P hP hc]
      try (cases hwr : env.write (w ++ [{ client := c, call := .GetAsync key }]) <;>
        simp [callAsync, hwr])

theorem Get_primary_only_witness :
    Memcached.Get (envDown 7) cutoverHeap [] 0 [107] =
      ([{ client := 0, call := .GetAsync [107] }],
        .returned (some (.inflight [{ client := 0, call := .GetAsync [107] }])) none) := by
  have h := Get_primary_only (envDown 7) cutoverHeap [] 0 [107]
    { fresh "new" StatusAdding PhaseReadWrite 0 with Mode := ModeReadWrite, next := some 2 }
    { fresh "new" StatusAdding PhaseReadWrite 0 with Mode := ModeReadWrite, next := some 2 }
    0 (some 2) 0 rfl rfl rfl rfl rfl
  exact Prod.ext h.2.2.1 (h.2.2.2.trans (by decide))

/-! ## The write methods of `*Memcached` -/

/-- Each write method is `writeThrough` on its own request; `Incr` and `Decr`
return the item's error, the others the nil error of the primary call. -/
theorem run_eq_writeThrough (env : Backend) (heap : Heap) (w : List Sent) (m : Nat)
    (op : WriteOp) :
    op.run env heap w m =
      writeThrough env heap w m op.call op.key op.expiration
        (fun v => if op.isCounter then v.Err else none) := by
  cases op <;> rfl

theorem isWriteOnly_true (heap : Heap) (a : Nat) (S : Memcached) (hS : heap[a]? = some S)
    (hm : S.Mode = ModeWriteOnly) : isWriteOnly heap (some a) = .ok true := by
  simp [isWriteOnly, deref, hS, hm]

theorem isWriteOnly_false (heap : Heap) (secondary : Option Nat)
    (h : secondary = none ∨
      ∃ a S, secondary = some a ∧ heap[a]? = some S ∧ S.Mode ≠ ModeWriteOnly) :
    isWriteOnly heap secondary = .ok false := by
  rcases h with h | ⟨a, S, h, hS, hm⟩
  · subst h; rfl
  · subst h; simp [isWriteOnly, deref, hS, hm]

/-- `writeThrough` when the secondary is nil or not in WriteOnly mode: one
request, on the primary, whose channel is returned with a nil error. -/
theorem writeThrough_single (env : Backend) (heap : Heap) (w : List Sent) (m : Nat)
    (call : Call) (key : List Nat) (expiration : Int) (itemErr : Item → Option Error)
    (primary secondary : Option Nat) (pc : Nat)
    (hps : PrimarySecondary heap m = .ok (primary, secondary))
    (hpc : clientOf heap primary = .ok pc)
    (hw : env.write (w ++ [{ client := pc, call := call }]) = .complete)
    (hwo : isWriteOnly heap secondary = .ok false) :
    writeThrough env heap w m call key expiration itemErr =
      (w ++ [{ client := pc, call := call }],
        .returned (some (.inflight (w ++ [{ client := pc, call := call }]))) none) := by
  simp [writeThrough, hps, hpc, callAsync, hw, hwo]

/-- `writeThrough` when the secondary is in WriteOnly mode and the primary's item
has no error: a second request, `SetAsync(key, v.Value, 0, nil, expiration)` on
the secondary, and a fresh channel holding the item is returned together with
the error of that second call. -/
theorem writeThrough_mirror (env : Backend) (heap : Heap) (w : List Sent) (m : Nat)
    (call : Call) (key : List Nat) (expiration : Int) (itemErr : Item → Option Error)
    (primary secondary : Option Nat) (pc sc : Nat) (v : Item)
    (hps : PrimarySecondary heap m = .ok (primary, secondary))
    (hpc : clientOf heap primary = .ok pc)
    (hw : env.write (w ++ [{ client := pc, call := call }]) = .complete)
    (hwo : isWriteOnly heap secondary = .ok true)
    (hr : env.reply (w ++ [{ client := pc, call := call }]) = some v) (hv : v.Err = none)
    (hsc : clientOf heap secondary = .ok sc) :
    writeThrough env heap w m call key expiration itemErr =
      (w ++ [{ client := pc, call := call },
          { client := sc, call := .SetAsync key v.Value 0 [] expiration }],
        .returned (some (.buffered v))
          (callAsync env (w ++ [{ client := pc, call := call }]) sc
            (.SetAsync key v.Value 0 [] expiration)).2.2) := by
  cases hw2 : env.write (w ++ [{ client := pc, call := call },
      { client := sc, call := .SetAsync key v.Value 0 [] expiration }]) <;>
    simp [writeThrough, hps, hpc, callAsync, hw, hwo, recv, hr, hv, hsc, hw2]

/-- `writeThrough` when the secondary is in WriteOnly mode and the primary's item
carries an error: nothing more is sent, and a nil channel is returned. -/
theorem writeThrough_itemErr (env : Backend) (heap : Heap) (w : List Sent) (m : Nat)
    (call : Call) (key : List Nat) (expiration : Int) (itemErr : Item → Option Error)
    (primary secondary : Option Nat) (pc : Nat) (v : Item) (e : Error)
    (hps : PrimarySecondary heap m = .ok (primary, secondary))
    (hpc : clientOf heap primary = .ok pc)
    (hw : env.write (w ++ [{ client := pc, call := call }]) = .complete)
    (hwo : isWriteOnly heap secondary = .ok true)
    (hr : env.reply (w ++ [{ client := pc, call := call }]) = some v) (hv : v.Err = some e) :
    writeThrough env heap w m call key expiration itemErr =
      (w ++ [{ client := pc, call := call }], .returned none (itemErr v)) := by
  simp [writeThrough, hps, hpc, callAsync, hw, hwo, recv, hr, hv]

/-- C7, as stated, fails on `cutoverHeap` (primary at address 0 with client 0,
secondary the WriteOnly duplicate at address 2 with client 1). An `Incr` written
to the primary and answered `KeyNotFound` returns a nil channel and the error;
a `Set` written to the primary and answered without error, whose mirror write
to the secondary fails, returns that error of the secondary to the caller. -/
theorem write_handle_refuted :
    PrimarySecondary cutoverHeap 0 = .ok (some 0, some 2) ∧
    envNotFound.write [{ client := 0, call := .IncrAsync [107] 1 0 60 }] = .complete ∧
    Memcached.Incr envNotFound cutoverHeap [] 0 [107] 1 0 60 =
      ([{ client := 0, call := .IncrAsync [107] 1 0 60 }],
        .returned none (some .ErrKeyNotFound)) ∧
    (envDown 1).write [{ client := 0, call := .SetAsync [107] [49] 0 [] 60 }] = .complete ∧
    (envDown 1).reply [{ client := 0, call := .SetAsync [107] [49] 0 [] 60 }] = some storedItem ∧
    Memcached.Set (envDown 1) cutoverHeap [] 0 [107] [49] 0 [] 60 =
      ([{ client := 0, call := .SetAsync [107] [49] 0 [] 60 },
          { client := 1, call := .SetAsync [107] [49] 0 [] 60 }],
        .returned (some (.buffered storedItem)) (some (.transport 32))) := by
  decide

/-- C7, amended: for `Set`, `Add`, `Replace`, `Incr` and `Decr` whose request was
written to the primary without transport error. If the secondary is nil or not
in WriteOnly mode, the caller receives the primary's channel, which yields the
primary's item whatever its status, and a nil error. If the secondary is in
WriteOnly mode and the primary's item carries no error, the caller receives a
non-nil channel that yields exactly that item, together with the outcome of the
write to the secondary (nil when it succeeded, its error otherwise). If the
secondary is in WriteOnly mode and the primary's item carries an error, `Incr`
and `Decr` return a nil channel and that error. -/
theorem write_returns (env : Backend) (heap : Heap) (w : List Sent) (m : Nat) (op : WriteOp)
    (primary : Nat) (secondary : Option Nat) (P : Memcached) (pc : Nat)
    (hps : PrimarySecondary heap m = .ok (some primary, secondary))
    (hP : heap[primary]? = some P) (hpc : P.Client = some pc)
    (hw : env.write (w ++ [{ client := pc, call := op.call }]) = .complete) :
    ((secondary = none ∨
        ∃ a S, secondary = some a ∧ heap[a]? = some S ∧ S.Mode ≠ ModeWriteOnly) →
      (op.run env heap w m).2 =
        .returned (some (.inflight (w ++ [{ client := pc, call := op.call }]))) none ∧
      recv env (some (.inflight (w ++ [{ client := pc, call := op.call }]))) =
        env.reply (w ++ [{ client := pc, call := op.call }])) ∧
    (∀ (a sc : Nat) (S : Memcached) (v : Item),
      secondary = some a → heap[a]? = some S → S.Mode = ModeWriteOnly → S.Client = some sc →
      env.reply (w ++ [{ client := pc, call := op.call }]) = some v → v.Err = none →
      (op.run env heap w m).2 =
        .returned (some (.buffered v))
          (match env.write (w ++ [{ client := pc, call := op.call },
              { client := sc, call := .SetAsync op.key v.Value 0 [] op.expiration }]) with
            | .complete => none
            | .failed err => err) ∧
      recv env (some (.buffered v)) = some v) ∧
    (∀ (a : Nat) (S : Memcached) (v : Item) (e : Error),
      secondary = some a → heap[a]? = some S → S.Mode = ModeWriteOnly →
      env.reply (w ++ [{ client := pc, call := op.call }]) = some v → v.Err = some e →
      op.isCounter = true →
      (op.run env heap w m).2 = .returned none (some e)) := by
  have hclient := clientOf_some heap primary pc P hP hpc
  refine ⟨?_, ?_, ?_⟩
  · intro hsec
    rw [run_eq_writeThrough, writeThrough_single env heap w m op.call op.key op.expiration _
      (some primary) secondary pc hps hclient hw (isWriteOnly_false heap secondary hsec)]
    exact ⟨rfl, rfl⟩
  · intro a sc S v hsec hS hmode hsc hr hv
    subst hsec
    rw [run_eq_writeThrough, writeThrough_mirror env heap w m op.call op.key op.expiration _
      (some primary) (some a) pc sc v hps hclient hw (isWriteOnly_true heap a S hS hmode) hr hv
      (clientOf_some heap a sc S hS hsc)]
    refine ⟨?_, rfl⟩
    cases hw2 : env.write (w ++ [{ client := pc, call := op.call },
        { client := sc, call := .SetAsync op.key v.Value 0 [] op.expiration }]) <;>
      simp [callAsync, hw2]
  · intro a S v e hsec hS hmode hr hv hcounter
    subst hsec
    rw [run_eq_writeThrough, writeThrough_itemErr env heap w m op.call op.key op.expiration _
      (some primary) (some a) pc v e hps hclient hw (isWriteOnly_true heap a S hS hmode) hr hv]
    simp [hcounter, hv]

theorem write_returns_witness :
    (WriteOp.Decr [107] 1 0 60).run envNotFound cutoverHeap [] 0 =
      ([{ client := 0, call := .DecrAsync [107] 1 0 60 }],
        .returned none (some .ErrKeyNotFound)) := by
  have h := (write_returns envNotFound cutoverHeap [] 0 (.Decr [107] 1 0 60) 0 (some 2)
    { fresh "new" StatusAdding PhaseReadWrite 0 with Mode := ModeReadWrite, next := some 2 } 0
    rfl rfl rfl rfl).2.2 2
    { fresh "old" StatusNormal PhaseReadWrite 1 with Mode := ModeWriteOnly } notFoundItem
    .ErrKeyNotFound rfl rfl rfl rfl rfl rfl
  exact Prod.ext (by decide) h

/-- C9: for `Set`, `Add`, `Replace`, `Incr` and `Decr` with arguments
`(key, ..., expiration)` whose request is written to the primary and answered
with an item `v` without error. If the secondary is non-nil and in WriteOnly
mode, the requests made are the method's own on the primary's client followed
by exactly one on the secondary's client, `SetAsync(key, v.Value, 0, nil,
expiration)`, whose opcode is 0x01. If the secondary is nil or not in WriteOnly
mode, the only request made is the one on the primary's client. -/
theorem write_mirrors_set (env : Backend) (heap : Heap) (w : List Sent) (m : Nat)
    (op : WriteOp) (primary : Nat) (secondary : Option Nat) (P : Memcached) (pc : Nat)
    (v : Item)
    (hps : PrimarySecondary heap m = .ok (some primary, secondary))
    (hP : heap[primary]? = some P) (hpc : P.Client = some pc)
    (hw : env.write (w ++ [{ client := pc, call := op.call }]) = .complete)
    (hr : env.reply (w ++ [{ client := pc, call := op.call }]) = some v)
    (hv : v.Err = none) :
    (∀ (a sc : Nat) (S : Memcached),
      secondary = some a → heap[a]? = some S → S.Mode = ModeWriteOnly → S.Client = some sc →
      (op.run env heap w m).1 =
        w ++ [{ client := pc, call := op.call },
          { client := sc, call := .SetAsync op.key v.Value 0 [] op.expiration }] ∧
      (Call.SetAsync op.key v.Value 0 [] op.expiration).opcode = 0x01 ∧
      (Call.SetAsync op.key v.Value 0 [] op.expiration).key = op.call.key) ∧
    ((secondary = none ∨
        ∃ a S, secondary = some a ∧ heap[a]? = some S ∧ S.Mode ≠ ModeWriteOnly) →
      (op.run env heap w m).1 = w ++ [{ client := pc, call := op.call }]) := by
  have hclient := clientOf_some heap primary pc P hP hpc
  refine ⟨?_, ?_⟩
  · intro a sc S hsec hS hmode hsc
    subst hsec
    rw [run_eq_writeThrough, writeThrough_mirror env heap w m op.call op.key op.expiration _
      (some primary) (some a) pc sc v hps hclient hw (isWriteOnly_true heap a S hS hmode) hr hv
      (clientOf_some heap a sc S hS hsc)]
    refine ⟨rfl, rfl, ?_⟩
    cases op <;> rfl
  · intro hsec
    rw [run_eq_writeThrough, writeThrough_single env heap w m op.call op.key op.expiration _
      (some primary) secondary pc hps hclient hw (isWriteOnly_false heap secondary hsec)]

theorem write_mirrors_set_witness :
    ((WriteOp.Incr [107] 1 0 60).run (envDown 7) cutoverHeap [] 0).1 =
      [{ client := 0, call := .IncrAsync [107] 1 0 60 },
        { client := 1, call := .SetAsync [107] [49] 0 [] 60 }] :=
  ((write_mirrors_set (envDown 7) cutoverHeap [] 0 (.Incr [107] 1 0 60) 0 (some 2)
    { fresh "new" StatusAdding PhaseReadWrite 0 with Mode := ModeReadWrite, next := some 2 } 0
    storedItem rfl rfl rfl rfl rfl rfl).1 2 1
    { fresh "old" StatusNormal PhaseReadWrite 1 with Mode := ModeWriteOnly }
    rfl rfl rfl rfl).1

/-! ## `Memcached.Del` -/

/-- C10, as stated, fails on `cutoverHeap` when the write to the primary fails:
the primary (address 0) and the secondary (address 2, client 1) are both
non-nil, yet the only request made is the `Delete` on the primary's client, and
the channel returned is nil. -/
theorem Del_refuted :
    PrimarySecondary cutoverHeap 0 = .ok (some 0, some 2) ∧
    clientOf cutoverHeap (some 2) = .ok 1 ∧
    Memcached.Del (envDown 0) cutoverHeap [] 0 [107] =
      ([{ client := 0, call := .DelAsync [107] }],
        .returned none (some (.transport 32))) := by
  decide

/-- C10, amended: for a backend with a non-nil primary whose `Delete` is written
to the primary without transport error, `Del(key)` makes one `DelAsync(key)` on
the primary's client and, exactly when the secondary is non-nil (whatever its
mode), one `DelAsync(key)` on the secondary's client; the channel returned is
the one of the primary's request. -/
theorem Del_fanout (env : Backend) (heap : Heap) (w : List Sent) (m : Nat) (key : List Nat)
    (primary : Nat) (secondary : Option Nat) (P : Memcached) (pc : Nat)
    (hps : PrimarySecondary heap m = .ok (some primary, secondary))
    (hP : heap[primary]? = some P) (hpc : P.Client = some pc)
    (hw : env.write (w ++ [{ client := pc, call := .DelAsync key }]) = .complete) :
    (secondary = none →
      Memcached.Del env heap w m key =
        (w ++ [{ client := pc, call := .DelAsync key }],
          .returned (some (.inflight (w ++ [{ client := pc, call := .DelAsync key }]))) none)) ∧
    (∀ (a sc : Nat) (S : Memcached),
      secondary = some a → heap[a]? = some S → S.Client = some sc →
      (Memcached.Del env heap w m key).1 =
        w ++ [{ client := pc, call := .DelAsync key }, { client := sc, call := .DelAsync key }] ∧
      ∃ err, (Memcached.Del env heap w m key).2 =
        .returned (some (.inflight (w ++ [{ client := pc, call := .DelAsync key }]))) err) := by
  have hclient := clientOf_some heap primary pc P hP hpc
  refine ⟨?_, ?_⟩
  · intro hsec
    subst hsec
    simp [Memcached.Del, hps, hclient, callAsync, hw]
  · intro a sc S hsec hS hsc
    subst hsec
    have hsclient := clientOf_some heap a sc S hS hsc
    cases hw2 : env.write (w ++ [{ client := pc, call := .DelAsync key },
        { client := sc, call := .DelAsync key }]) <;>
      simp [Memcached.Del, hps, hclient, callAsync, hw, hsclient, hw2]

theorem Del_fanout_witness :
    (Memcached.Del (envDown 7) cutoverHeap [] 0 [107]).1 =
      [{ client := 0, call := .DelAsync [107] }, { client := 1, call := .DelAsync [107] }] :=
  ((Del_fanout (envDown 7) cutoverHeap [] 0 [107] 0 (some 2)
    { fresh "new" StatusAdding PhaseReadWrite 0 with Mode := ModeReadWrite, next := some 2 } 0
    rfl rfl rfl rfl).2 2 1
    { fresh "old" StatusNormal PhaseReadWrite 1 with Mode := ModeWriteOnly } rfl rfl rfl).1

/-! ## Request frames -/

/-- The bytes of the frame of `incrAndDecrAsync`, field by field. -/
theorem incrAndDecrAsync_bytes (sequence opcode : Nat) (key : List Nat)
    (delta initial expiration : Int) :
    Client.incrAndDecrAsync sequence opcode key delta initial expiration =
      [MagicRequest, opcode] ++ PutUint16 (key.length % 2 ^ 16) ++ [20, 0, 0, 0] ++
        PutUint32 ((key.length + 20) % 2 ^ 32) ++ PutUint32 sequence ++ PutUint64 0 ++
        PutUint64 (delta % 2 ^ 64).toNat ++ PutUint64 (initial % 2 ^ 64).toNat ++
        PutUint32 (expiration % 2 ^ 32).toNat ++ key := by
  simp only [Client.incrAndDecrAsync, putAt, PutUint16, PutUint32, PutUint64, List.replicate,
    List.set, List.take, List.drop, List.length, List.cons_append, List.nil_append,
    List.append_nil, List.append_assoc, Nat.zero_div, Nat.zero_mod]

/-- The bytes of the frame of `setAsync`, field by field. -/
theorem setAsync_bytes (sequence opcode : Nat) (key value : List Nat) (cas : Nat)
    (flag : List Nat) (expiration : Int) :
    Client.setAsync sequence opcode key value cas flag expiration =
      [MagicRequest, opcode] ++ PutUint16 (key.length % 2 ^ 16) ++
        [(flag.length + 4) % 256, 0, 0, 0] ++
        PutUint32 ((key.length + flag.length + value.length + 4) % 2 ^ 32) ++
        PutUint32 sequence ++ (if cas ≠ 0 then PutUint64 cas else [0, 0, 0, 0, 0, 0, 0, 0]) ++
        flag ++ PutUint32 (expiration % 2 ^ 32).toNat ++ key ++ value := by
  by_cases h : cas = 0 <;>
  simp only [Client.setAsync, h, putAt, PutUint16, PutUint32, PutUint64, List.replicate,
    List.set, List.take, List.drop, List.length, List.cons_append, List.nil_append,
    List.append_nil, List.append_assoc, ne_eq, not_true_eq_false, not_false_eq_true, if_true,
    if_false, Nat.zero_div, Nat.zero_mod]

theorem bigEndian_bytes16 (v : Nat) :
    bigEndian [v / 2 ^ 8 % 256, v % 256] = v % 2 ^ 16 := by
  simp only [bigEndian, List.foldl]
  norm_num
  omega

theorem bigEndian_bytes32 (v : Nat) :
    bigEndian [v / 2 ^ 24 % 256, v / 2 ^ 16 % 256, v / 2 ^ 8 % 256, v % 256] = v % 2 ^ 32 := by
  simp only [bigEndian, List.foldl]
  norm_num
  omega

theorem bigEndian_bytes64 (v : Nat) :
    bigEndian [v / 2 ^ 56 % 256, v / 2 ^ 48 % 256, v / 2 ^ 40 % 256, v / 2 ^ 32 % 256,
      v / 2 ^ 24 % 256, v / 2 ^ 16 % 256, v / 2 ^ 8 % 256, v % 256] = v % 2 ^ 64 := by
  simp only [bigEndian, List.foldl]
  norm_num
  omega

theorem toNat_emod_lt (x : Int) (n : Nat) (hn : 0 < n) : (x % (n : Int)).toNat < n := by
  have h1 : 0 ≤ x % (n : Int) := Int.emod_nonneg _ (by omega)
  have h2 : x % (n : Int) < (n : Int) := Int.emod_lt_of_pos _ (by omega)
  omega

/-- C20: the frame that `incrAndDecrAsync` builds for a key shorter than `2^16`
bytes is the 24-byte header (magic 0x80, the opcode, key length `len(key)`,
extras length 20, data type and vbucket 0, total body length `20 + len(key)`,
the opaque, CAS 0), then the 8-byte big-endian `delta` and `initial` (their
residues modulo `2^64`), the 4-byte big-endian `expiration` (modulo `2^32`),
then the key, and nothing else; `IncrAsync` uses opcode 0x05 and `DecrAsync`
0x06. -/
theorem incrAndDecrAsync_frame (sequence opcode : Nat) (key : List Nat)
    (delta initial expiration : Int) (f : List Nat)
    (hf : f = Client.incrAndDecrAsync sequence opcode key delta initial expiration)
    (hkey : key.length < 2 ^ 16) :
    f.length = 24 + 20 + key.length ∧
    f.take 2 = [0x80, opcode] ∧
    Uint16 (f.drop 2) = key.length ∧
    (f.drop 4).take 4 = [20, 0, 0, 0] ∧
    Uint32 (f.drop 8) = 20 + key.length ∧
    Uint32 (f.drop 12) = sequence % 2 ^ 32 ∧
    Uint64 (f.drop 16) = 0 ∧
    Uint64 (f.drop 24) = (delta % 2 ^ 64).toNat ∧
    Uint64 (f.drop 32) = (initial % 2 ^ 64).toNat ∧
    Uint32 (f.drop 40) = (expiration % 2 ^ 32).toNat ∧
    f.drop 44 = key ∧
    Call.frame sequence (.IncrAsync key delta initial expiration) =
      Client.incrAndDecrAsync sequence 0x05 key delta initial expiration ∧
    Call.frame sequence (.DecrAsync key delta initial expiration) =
      Client.incrAndDecrAsync sequence 0x06 key delta initial expiration := by
  have hd := toNat_emod_lt delta (2 ^ 64) (by norm_num)
  have hi := toNat_emod_lt initial (2 ^ 64) (by norm_num)
  have he := toNat_emod_lt expiration (2 ^ 32) (by norm_num)
  have hd' : ((delta % 2 ^ 64).toNat) % 2 ^ 64 = (delta % 2 ^ 64).toNat :=
    Nat.mod_eq_of_lt (by exact_mod_cast hd)
  have hi' : ((initial % 2 ^ 64).toNat) % 2 ^ 64 = (initial % 2 ^ 64).toNat :=
    Nat.mod_eq_of_lt (by exact_mod_cast hi)
  have he' : ((expiration % 2 ^ 32).toNat) % 2 ^ 32 = (expiration % 2 ^ 32).toNat :=
    Nat.mod_eq_of_lt (by exact_mod_cast he)
  rw [incrAndDecrAsync_bytes] at hf
  simp only [PutUint16, PutUint32, PutUint64, List.cons_append, List.nil_append,
    List.append_assoc] at hf
  subst hf
  simp only [Uint16, Uint32, Uint64, List.take, List.drop, List.length_cons, bigEndian_bytes16,
    bigEndian_bytes32, bigEndian_bytes64, hd', hi', he', Call.frame, OpcodeIncr, OpcodeDecr,
    MagicRequest]
  refine ⟨by omega, trivial, by omega, trivial, by omega, trivial, by norm_num, trivial, trivial,
    trivial, trivial, trivial, trivial⟩
theorem incrAndDecrAsync_frame_witness :
    Client.incrAndDecrAsync 3 0x05 [107] (-1) 5 60 =
        [128, 5, 0, 1, 20, 0, 0, 0, 0, 0, 0, 21, 0, 0, 0, 3, 0, 0, 0, 0, 0, 0, 0, 0,
         255, 255, 255, 255, 255, 255, 255, 255, 0, 0, 0, 0, 0, 0, 0, 5, 0, 0, 0, 60, 107] ∧
    Uint64 ((Client.incrAndDecrAsync 3 0x05 [107] (-1) 5 60).drop 24) = 2 ^ 64 - 1 :=
  ⟨by decide,
    (incrAndDecrAsync_frame 3 0x05 [107] (-1) 5 60 _ rfl (by decide)).2.2.2.2.2.2.2.1.trans
      (by decide)⟩

/-- C11 fails when the flag argument does not have four bytes: the extras-length
byte of the frame of `setAsync` is `len(flag) + 4` (as a byte), so it is 4 for
the nil flag that `Memcached.Set` passes when it mirrors a write to the
secondary. On `cutoverHeap` a `Set` with four bytes of flags sends the primary
a frame with extras length 8 and the secondary the request
`SetAsync(key, value, 0, nil, expiration)`, whose frame has extras length 4 and
total body length `4 + len(key) + len(value)`. -/
theorem setAsync_flag_length (sequence opcode : Nat) (key value : List Nat) (cas : Nat)
    (flag : List Nat) (expiration : Int) :
    (Client.setAsync sequence opcode key value cas flag expiration)[4]? =
      some ((flag.length + 4) % 256) ∧
    (Client.setAsync sequence opcode key value cas [] expiration)[4]? = some 4 ∧
    ((WriteOp.Set [107] [49] 0 [0, 0, 0, 0] 60).run (envDown 7) cutoverHeap [] 0).1 =
      [{ client := 0, call := .SetAsync [107] [49] 0 [0, 0, 0, 0] 60 },
       { client := 1, call := .SetAsync [107] [49] 0 [] 60 }] ∧
    Call.frame 1 (.SetAsync [107] [49] 0 [0, 0, 0, 0] 60) =
      [128, 1, 0, 1, 8, 0, 0, 0, 0, 0, 0, 10, 0, 0, 0, 1, 0, 0, 0, 0, 0, 0, 0, 0,
       0, 0, 0, 0, 0, 0, 0, 60, 107, 49] ∧
    Call.frame 1 (.SetAsync [107] [49] 0 [] 60) =
      [128, 1, 0, 1, 4, 0, 0, 0, 0, 0, 0, 6, 0, 0, 0, 1, 0, 0, 0, 0, 0, 0, 0, 0,
       0, 0, 0, 60, 107, 49] := by
  have hbyte : ∀ fl : List Nat,
      (Client.setAsync sequence opcode key value cas fl expiration)[4]? =
        some ((fl.length + 4) % 256) := by
    intro fl
    rw [setAsync_bytes]
    simp only [PutUint16, List.cons_append, List.nil_append, List.append_assoc,
      List.getElem?_cons_succ, List.getElem?_cons_zero]
  exact ⟨hbyte flag, hbyte [], by decide, by decide, by decide⟩

/-! ## The frontend parser -/

/-- An index expression does not see what follows the length of the slice in
its backing array. -/
theorem index_spare (s : ByteSlice) (spare : List Nat) (i : Nat) (hwf : s.len ≤ s.arr.length) :
    ByteSlice.index { arr := s.arr ++ spare, len := s.len } i = s.index i := by
  unfold ByteSlice.index
  by_cases hi : i < s.len
  · simp only [hi, if_true]
    rw [List.getElem?_append_left (by omega)]
  · simp only [hi, if_false]

/-- A slice expression that succeeds still succeeds, with the same elements,
when the backing array is longer. -/
theorem slice_spare (s t : ByteSlice) (spare : List Nat) (a b : Nat)
    (h : s.slice a b = .ok t) :
    ByteSlice.slice { arr := s.arr ++ spare, len := s.len } a b =
        .ok { arr := t.arr ++ spare, len := t.len } ∧
      t.len ≤ t.arr.length := by
  unfold ByteSlice.slice at h ⊢
  by_cases hc : a ≤ b ∧ b ≤ s.arr.length
  · simp only [hc, and_self, if_true, Except.ok.injEq] at h
    subst h
    have hc' : a ≤ b ∧ b ≤ (s.arr ++ spare).length := by
      rw [List.length_append]; omega
    simp only [hc', and_self, if_true, List.length_drop]
    refine ⟨?_, by omega⟩
    rw [List.drop_append_of_le_length (by omega)]
  · simp only [hc, if_false] at h
    cases h

/-- The elements of a slice do not depend on what follows them in the backing
array. -/
theorem bytes_spare (t : ByteSlice) (spare : List Nat) (hwf : t.len ≤ t.arr.length) :
    ByteSlice.bytes { arr := t.arr ++ spare, len := t.len } = t.bytes := by
  unfold ByteSlice.bytes
  simp only
  rw [List.take_append_of_le_length hwf]

/-- What `parseRequest` passes to `handle` for a slice, it passes for every
slice with the same elements and a larger capacity. -/
theorem parse_spare (s : ByteSlice) (spare : List Nat) (r : Option Parsed)
    (hwf : s.len ≤ s.arr.length) (h : Router.parse s = .ok r) :
    Router.parse { arr := s.arr ++ spare, len := s.len } = .ok r := by
  unfold Router.parse at h ⊢
  simp only [bind, Except.bind, pure, Except.pure, ByteSlice.sliceFrom, ByteSlice.sliceTo] at h ⊢
  rw [index_spare s spare 0 hwf, index_spare s spare 1 hwf, index_spare s spare 4 hwf]
  split at h
  · cases h
  split at h
  · rename_i hm
    rw [if_pos hm]
    exact h
  rename_i hm
  rw [if_neg hm]
  split at h
  · cases h
  split at h
  · cases h
  rename_i t ht
  rw [(slice_spare _ t spare _ _ ht).1]
  try simp only [bytes_spare t spare (slice_spare _ t spare _ _ ht).2]
  split at h
  · cases h
  split at h
  · cases h
  rename_i t ht
  rw [(slice_spare _ t spare _ _ ht).1]
  try simp only [bytes_spare t spare (slice_spare _ t spare _ _ ht).2]
  split at h
  · cases h
  rename_i t ht
  rw [(slice_spare _ t spare _ _ ht).1]
  try simp only [bytes_spare t spare (slice_spare _ t spare _ _ ht).2]
  split at h
  · cases h
  rename_i t ht
  rw [(slice_spare _ t spare _ _ ht).1]
  try simp only [bytes_spare t spare (slice_spare _ t spare _ _ ht).2]
  split at h
  · cases h
  rename_i t ht
  rw [(slice_spare _ t spare _ _ ht).1]
  try simp only [bytes_spare t spare (slice_spare _ t spare _ _ ht).2]
  split at h
  · rename_i hx
    rw [if_pos hx]
    split at h
    · cases h
    rename_i t ht
    rw [(slice_spare _ t spare _ _ ht).1]
    try simp only [bytes_spare t spare (slice_spare _ t spare _ _ ht).2]
    split at h
    · cases h
    rename_i t ht
    rw [(slice_spare _ t spare _ _ ht).1]
    try simp only [bytes_spare t spare (slice_spare _ t spare _ _ ht).2]
    split at h
    · rename_i hk
      rw [if_pos hk]
      split at h
      · cases h
      rename_i t ht
      rw [(slice_spare _ t spare _ _ ht).1]
      try simp only [bytes_spare t spare (slice_spare _ t spare _ _ ht).2]
      split at h
      · cases h
      rename_i t ht
      rw [(slice_spare _ t spare _ _ ht).1]
      try simp only [bytes_spare t spare (slice_spare _ t spare _ _ ht).2]
      split at h
      · rename_i hv
        rw [if_pos hv]
        split at h
        · cases h
        rename_i t ht
        rw [(slice_spare _ t spare _ _ ht).1]
        try simp only [bytes_spare t spare (slice_spare _ t spare _ _ ht).2]
        exact h
      · rename_i hv
        rw [if_neg hv]
        exact h
    · rename_i hk
      rw [if_neg hk]
      split at h
      · rename_i hv
        rw [if_pos hv]
        split at h
        · cases h
        rename_i t ht
        rw [(slice_spare _ t spare _ _ ht).1]
        try simp only [bytes_spare t spare (slice_spare _ t spare _ _ ht).2]
        exact h
      · rename_i hv
        rw [if_neg hv]
        exact h
  · rename_i hx
    rw [if_neg hx]
    split at h
    · rename_i hk
      rw [if_pos hk]
      split at h
      · cases h
      rename_i t ht
      rw [(slice_spare _ t spare _ _ ht).1]
      try simp only [bytes_spare t spare (slice_spare _ t spare _ _ ht).2]
      split at h
      · cases h
      rename_i t ht
      rw [(slice_spare _ t spare _ _ ht).1]
      try simp only [bytes_spare t spare (slice_spare _ t spare _ _ ht).2]
      split at h
      · rename_i hv
        rw [if_pos hv]
        split at h
        · cases h
        rename_i t ht
        rw [(slice_spare _ t spare _ _ ht).1]
        try simp only [bytes_spare t spare (slice_spare _ t spare _ _ ht).2]
        exact h
      · rename_i hv
        rw [if_neg hv]
        exact h
    · rename_i hk
      rw [if_neg hk]
      split at h
      · rename_i hv
        rw [if_pos hv]
        split at h
        · cases h
        rename_i t ht
        rw [(slice_spare _ t spare _ _ ht).1]
        try simp only [bytes_spare t spare (slice_spare _ t spare _ _ ht).2]
        exact h
      · rename_i hv
        rw [if_neg hv]
        exact h

/-- The same, for the bytes `b` followed by `spare` in the backing array. -/
theorem parse_with_spare (b spare : List Nat) (r : Option Parsed)
    (h : Router.parse (ByteSlice.ofBytes b) = .ok r) :
    Router.parse { arr := b ++ spare, len := b.length } = .ok r :=
  parse_spare (ByteSlice.ofBytes b) spare r (Nat.le_refl _) h

/-- C12 fails for a request with a value: `parseRequest`, applied to the frame
that `setAsync` builds for key "k", value "v", CAS 5, four bytes of flags and
opaque 1, passes to `handle` the opcode, key, extras, CAS and opaque of the
frame, but a nil value, whatever the capacity of the slice that holds the
frame and whatever follows the frame in its backing array. -/
theorem parse_drops_value (spare : List Nat) :
    Client.setAsync 1 OpcodeSet [107] [118] 5 [0, 0, 0, 9] 60 =
      [128, 1, 0, 1, 8, 0, 0, 0, 0, 0, 0, 10, 0, 0, 0, 1, 0, 0, 0, 0, 0, 0, 0, 5,
       0, 0, 0, 9, 0, 0, 0, 60, 107, 118] ∧
    Router.parse (ByteSlice.ofBytes (Client.setAsync 1 OpcodeSet [107] [118] 5 [0, 0, 0, 9] 60)) =
      .ok (some { opcode := 1, key := [107], value := [], cas := 5,
                  extra := [0, 0, 0, 9, 0, 0, 0, 60], tag := 1 }) ∧
    Router.parse
        { arr := Client.setAsync 1 OpcodeSet [107] [118] 5 [0, 0, 0, 9] 60 ++ spare,
          len := (Client.setAsync 1 OpcodeSet [107] [118] 5 [0, 0, 0, 9] 60).length } =
      .ok (some { opcode := 1, key := [107], value := [], cas := 5,
                  extra := [0, 0, 0, 9, 0, 0, 0, 60], tag := 1 }) :=
  ⟨by decide, by decide, parse_with_spare _ spare _ (by decide)⟩

/-! ## The reader of the backend client -/

/-- C13 fails for every status other than 0, 1, 2 and 3: the `switch` of
`dispatch` has no case for them, although `client.go` declares their constants,
and the item is delivered with a nil error. A frame with status 0x0004 and
opaque 2 is delivered to the channel registered for opaque 2 with `Err` nil. -/
theorem dispatch_status_unmapped :
    [StatusInvalidArguments, StatusItemNotStored, StatusNonNumericValue, StatusUnknownCommand,
      StatusOutOfMemory, StatusNotSupported, StatusInternalError, StatusBusy,
      StatusTemporaryFailure].map statusErr = List.replicate 9 none ∧
    [StatusNoError, StatusKeyNotFound, StatusKeyExists, StatusValueTooLarge].map statusErr =
      [none, some .ErrKeyNotFound, some .ErrKeyAlreadyExists, some .ErrValueTooLarge] ∧
    Client.dispatch [(2, 20)] (responseFrame 0x0004 2 [] [] []) =
      .ok ([], some (20, { Key := [], Value := [], Extra := [], CAS := 0, Err := none,
                           Raw := responseFrame 0x0004 2 [] [] [] })) := by
  decide

set_option maxRecDepth 100000 in
/-- C14 fails in both ways it names. A 512-byte response (opaque 1, a value of
488 bytes) read as 256 bytes and then 256 bytes: `readConn` passes the first
256 bytes to `dispatch`, which panics on the short buffer, and nothing is
delivered. Two 24-byte responses (opaques 1 and 2) returned by one read:
`readConn` passes the 48 bytes to `dispatch` as one buffer, the first channel
receives an item whose `Raw` is the 48 bytes, and the second request stays in
the map for ever. -/
theorem readConn_not_length_driven :
    (responseFrame 0 1 [] [] (List.replicate 488 7)).length = 512 ∧
    Client.readConn [(1, 10)] []
        [(responseFrame 0 1 [] [] (List.replicate 488 7)).take 256,
         (responseFrame 0 1 [] [] (List.replicate 488 7)).drop 256] =
      { dispatched := [(responseFrame 0 1 [] [] (List.replicate 488 7)).take 256],
        delivered := [], asyncRequest := [(1, 10)], fault := some .panicIndexOutOfRange } ∧
    Client.readConn [(1, 10), (2, 20)] []
        [responseFrame 0 1 [] [] [] ++ responseFrame 0 2 [] [] []] =
      { dispatched := [responseFrame 0 1 [] [] [] ++ responseFrame 0 2 [] [] []],
        delivered :=
          [(10, { Key := [], Value := [], Extra := [], CAS := 0, Err := none,
                  Raw := responseFrame 0 1 [] [] [] ++ responseFrame 0 2 [] [] [] })],
        asyncRequest := [(2, 20)], fault := none } := by
  decide!

/-- C19 fails for a well-formed response with extras, such as a `Get` hit with
four bytes of flags (opaque 1, value "ok"): `dispatch` takes the value from
`buf[24+keySize+extraSize : 24+keySize+extraSize+bodySize]` with `bodySize` the
total body length, a slice that ends four bytes past the buffer, and panics;
no item is delivered. The same defect is the subject of C22. -/
theorem dispatch_panics_on_extras :
    (responseFrame 0 1 [0, 0, 0, 0] [] [111, 107]).length = 24 + 6 ∧
    Client.dispatch [(1, 10)] (responseFrame 0 1 [0, 0, 0, 0] [] [111, 107]) =
      .error .panicIndexOutOfRange ∧
    Client.dispatch [(1, 10)] (responseFrame 0 1 [] [] [111, 107]) =
      .ok ([], some (10, { Key := [], Value := [111, 107], Extra := [], CAS := 0, Err := none,
                           Raw := responseFrame 0 1 [] [] [111, 107] })) := by
  decide

/-! ## The frontend -/

/-- C15 fails for every request that arrives in one read of fewer than 1500
bytes: `serve` appends to `msg` only after a read of exactly 1500 bytes, so the
frame of a `Get` for "key" with opaque 7 (27 bytes) is never copied, and
`parseRequest` is called with a `msg` of length 0, where `req[0]` panics. This
holds for the `msg` of capacity 0 that `serve` starts with and for a `msg` that
an earlier `msg[:0]` left with spare capacity. -/
theorem serve_drops_last_read (grow : Nat → Nat → Nat) (env : Backend) (ring : Ring)
    (heap : Heap) (w : List Sent) (spare : List Nat) :
    (Client.GetAsync 7 [107, 101, 121]).length = 27 ∧
    Router.parse (ByteSlice.ofBytes (Client.GetAsync 7 [107, 101, 121])) =
      .ok (some { opcode := 0, key := [107, 101, 121], value := [], cas := 0, extra := [],
                  tag := 7 }) ∧
    Router.serve grow env ring heap w (ByteSlice.ofBytes []) [Client.GetAsync 7 [107, 101, 121]] =
      [([], .panicked .panicIndexOutOfRange)] ∧
    Router.serve grow env ring heap w { arr := spare, len := 0 }
        [Client.GetAsync 7 [107, 101, 121]] =
      [([], .panicked .panicIndexOutOfRange)] := by
  have hlen : (Client.GetAsync 7 [107, 101, 121]).length = 27 := by decide
  have hparse : ∀ sp : List Nat,
      Router.parse { arr := sp, len := 0 } = .error .panicIndexOutOfRange := by
    intro sp
    simp [Router.parse, ByteSlice.index, bind, Except.bind]
  have hserve : ∀ sp : List Nat,
      Router.serve grow env ring heap w { arr := sp, len := 0 }
          [Client.GetAsync 7 [107, 101, 121]] =
        [([], .panicked .panicIndexOutOfRange)] := by
    intro sp
    unfold Router.serve
    simp only [hlen, Router.parseRequest, hparse sp]
    simp [ByteSlice.bytes]
  exact ⟨hlen, by decide, hserve [], hserve spare⟩

/-- C16 fails whenever the opaque of the backend client differs from the
client's: `handle` never reads its `opaque` argument, so its outcome is the
same for every opaque, and it writes `res.Raw` as received. With the ring of
the first case of `TestRing_Pick` and three live servers, a `Get` for "test"
with opaque 7 is sent to host3, whose client numbers the request 1; the frame
written back is the backend's response, with opaque 1. -/
theorem handle_ignores_tag :
    (∀ (env : Backend) (ring : Ring) (heap : Heap) (w : List Sent) (opcode : Nat)
        (key value : List Nat) (cas : Nat) (extra : List Nat) (o o' : Nat),
      Router.handle env ring heap w opcode key value cas extra o =
        Router.handle env ring heap w opcode key value cas extra o') ∧
    Router.handle envEcho testRing1 liveHeap [] OpcodeGet (bytesOf "test") [] 0 [] 7 =
      ([{ client := 2, call := .GetAsync (bytesOf "test") }],
        .wrote (responseFrame 0 1 [] [] [111, 107])) ∧
    Uint32 ((responseFrame 0 1 [] [] [111, 107]).drop 12) = 1 := by
  refine ⟨fun _ _ _ _ _ _ _ _ _ _ _ => rfl, ?_, by decide⟩
  have hpick : Ring.Pick testRing1 (ClusterCall.Get (bytesOf "test")).key = .ok 2 :=
    Pick_testRing1
  have hroute : Router.route OpcodeGet (bytesOf "test") [] 0 [] =
      .ok (some (.Get (bytesOf "test"))) := rfl
  have hget : Memcached.Get envEcho liveHeap [] 2 (bytesOf "test") =
      ([{ client := 2, call := .GetAsync (bytesOf "test") }],
        .returned (some (.inflight [{ client := 2, call := .GetAsync (bytesOf "test") }])) none) := by
    decide
  unfold Router.handle
  rw [hroute]
  simp only [Cluster.call, hpick, hget]
  decide

/-- C17 fails for five of the seven opcodes: the `switch` of `handle` has cases
for `Get` and `Set` only. For `Add` (0x02), `Replace` (0x03), `Delete` (0x04),
`Incr` (0x05) and `Decr` (0x06) no method of the cluster is called and `handle`
returns without writing; `Get` calls `Cluster.Get(key)` and `Set` calls
`Cluster.Set` with the first four extras bytes as flags and the big-endian
value of extras bytes 4..7 as expiration. -/
theorem route_missing_cases (env : Backend) (ring : Ring) (heap : Heap) (w : List Sent)
    (key value : List Nat) (cas : Nat) (extra : List Nat) (o : Nat) :
    Router.route 0x02 key value cas extra = .ok none ∧
    Router.route 0x03 key value cas extra = .ok none ∧
    Router.route 0x04 key value cas extra = .ok none ∧
    Router.route 0x05 key value cas extra = .ok none ∧
    Router.route 0x06 key value cas extra = .ok none ∧
    Router.handle env ring heap w 0x04 key value cas extra o = (w, .silent) ∧
    Router.route 0x00 key value cas extra = .ok (some (.Get key)) ∧
    Router.route 0x01 key value cas [0, 0, 0, 9, 0, 0, 0, 60] =
      .ok (some (.Set key value cas [0, 0, 0, 9] 60)) := by
  refine ⟨rfl, rfl, rfl, rfl, rfl, rfl, rfl, ?_⟩
  simp [Router.route, OpcodeGet, OpcodeSet, slice, bind, Except.bind, pure, Except.pure, Uint32,
    bigEndian]

/-! ## The configuration -/

/-- C18 fails for every configuration with a server: `ToRouter` fills its local
slice with one backend per entry, mapped as the claim says, and then returns
nil. For `oneServer` the local slice has one backend and the result none, and
the ring built from the result has an empty table, on which `Pick` panics. -/
theorem ToRouter_returns_nil (c : Config) (key : List Nat) :
    Config.ToRouter c = [] ∧
    (Config.servers c).length = c.Servers.length ∧
    Config.servers oneServer =
      [{ Name := "cache-0", Host := "10.0.0.1", Port := 11211, Status := StatusNormal,
         Phase := PhaseReadWrite, Mode := ModeDeleteOnly, Client := none, hash := 0,
         next := none }] ∧
    NewRing insertionSlice (Config.ToRouter oneServer) =
      .ok ({ Servers := [], Table := [] }, []) ∧
    Ring.Pick { Servers := [], Table := [] } key = .error .panicIndexOutOfRange := by
  refine ⟨rfl, by simp [Config.servers], by decide, by decide, ?_⟩
  unfold Ring.Pick pickLoop
  simp [bind, Except.bind, index, pure, Except.pure]

/-! ## The last slot of the ring -/

set_option maxRecDepth 100000 in
/-- C21 fails whenever the highest-hash virtual node belongs to a server being
added or deleted: the mode loop reads `t[i+1]` at the last slot and panics with
an index out of range, so `NewRing` returns no ring. This happens for a list of
one server with status Adding, and for the servers "a" (Adding, DeleteOnly) and
"b" (Normal), where the highest hash is one of "a". -/
theorem NewRing_last_slot_panics :
    NewRing insertionSlice [fresh "m1" StatusAdding PhaseWriteOnly 0] =
      .error .panicIndexOutOfRange ∧
    NewRing insertionSlice
        [fresh "a" StatusAdding PhaseDeleteOnly 0, fresh "b" StatusNormal PhaseReadWrite 1] =
      .error .panicIndexOutOfRange ∧
    ((sortByHash (allNodes 0
        [fresh "a" StatusAdding PhaseDeleteOnly 0, fresh "b" StatusNormal PhaseReadWrite 1])
      ).getLast?).map (fun n => n.Server) = some 0 := by
  decide!

/-! ## Slices of the response frame -/

theorem slice_ok (xs : List Nat) (a b : Nat) (h1 : a ≤ b) (h2 : b ≤ xs.length) :
    slice xs a b = .ok ((xs.drop a).take (b - a)) := by
  simp [slice, h1, h2]

theorem slice_panics (xs : List Nat) (a b : Nat) (h : xs.length < b) :
    slice xs a b = .error .panicIndexOutOfRange := by
  have : ¬ (a ≤ b ∧ b ≤ xs.length) := by omega
  simp [slice, this]

/-- C22 fails for every well-formed response frame with extras or a key:
`f` has magic 0x81, extras length `es` (byte 4), key length `Uint16(f[2:4])`,
`len(f) = 24 + total` with `total = Uint32(f[8:12])`, and
`es + key length ≤ total`. If `es + key length > 0`, `dispatch` slices
`buf[24+keySize+extraSize : 24+keySize+extraSize+bodySize]` with `bodySize` the
total body length, which ends past the buffer, and panics instead of building
the item. -/
theorem dispatch_panics_of_extras_or_key (T : List (Nat × Nat)) (f : List Nat) (es : Nat)
    (hmagic : f[0]? = some MagicResponse) (hes : f[4]? = some es)
    (hlen : f.length = 24 + Uint32 ((f.drop 8).take 4))
    (hfit : es + Uint16 ((f.drop 2).take 2) ≤ Uint32 ((f.drop 8).take 4))
    (hpos : 0 < es + Uint16 ((f.drop 2).take 2)) :
    Client.dispatch T f = .error .panicIndexOutOfRange := by
  have h0 : index f 0 = .ok MagicResponse := by
    have := index_of_getElem? f 0 _ hmagic
    simpa using this
  have h4 : index f 4 = .ok es := by
    have := index_of_getElem? f 4 _ hes
    simpa using this
  have hl : ¬ f.length < 24 := by omega
  unfold Client.dispatch
  simp only [bind, Except.bind, h0, h4, ne_eq, not_true_eq_false, if_false, hl,
    slice_ok f 2 4 (by omega) (by omega), slice_ok f 6 8 (by omega) (by omega),
    slice_ok f 8 12 (by omega) (by omega), slice_ok f 12 16 (by omega) (by omega),
    slice_ok f 16 24 (by omega) (by omega)]
  simp only [Nat.reduceSub]
  generalize Uint16 (List.take 2 (List.drop 2 f)) = ks at *
  generalize Uint32 (List.take 4 (List.drop 8 f)) = total at *
  have hbody : slice f (24 + ks + es) (24 + ks + es + total) = .error .panicIndexOutOfRange :=
    slice_panics _ _ _ (by omega)
  have htot : total > 0 := by omega
  simp only [slice_ok f 24 (24 + es) (by omega) (by omega), hbody, htot, if_true]
  by_cases hk : ks > 0
  · simp only [hk, if_true, slice_ok f (24 + es) (24 + es + ks) (by omega) (by omega)]
  · simp only [hk, if_false, pure, Except.pure]

theorem dispatch_panics_of_extras_or_key_witness :
    responseFrame 0 1 [0, 0, 0, 0] [] [111, 107] =
      [129, 0, 0, 0, 4, 0, 0, 0, 0, 0, 0, 6, 0, 0, 0, 1, 0, 0, 0, 0, 0, 0, 0, 0,
       0, 0, 0, 0, 111, 107] ∧
    Client.dispatch [(1, 10)] (responseFrame 0 1 [0, 0, 0, 0] [] [111, 107]) =
      .error .panicIndexOutOfRange ∧
    Client.dispatch [(1, 10)] (responseFrame 0 1 [] [107] [111, 107]) =
      .error .panicIndexOutOfRange :=
  ⟨by decide,
    dispatch_panics_of_extras_or_key [(1, 10)] (responseFrame 0 1 [0, 0, 0, 0] [] [111, 107]) 4
      (by decide) (by decide) (by decide) (by decide) (by decide),
    dispatch_panics_of_extras_or_key [(1, 10)] (responseFrame 0 1 [] [107] [111, 107]) 0
      (by decide) (by decide) (by decide) (by decide) (by decide)⟩

/-! ## Malformed requests -/

/-- C23 fails: `parseRequest` checks nothing but the magic byte. Whatever the
capacity of `req` and the bytes after its length: the empty sequence panics at
`req[0]`; a sequence of three bytes with magic 0x80 panics at `req[2:4]` or at
`req[4]`; a 24-byte header that announces a key of three bytes that are not
there panics at `req[:keyLength]` or at `req[keyLength:]`; a `Set` with four
bytes of extras (the frame `setAsync` builds for a nil flag) panics in `handle`
at `extra[4:8]`. A `Set` whose value of one byte is missing panics at
`req[:valueLength]` when `req` has no spare capacity and is passed to `handle`
when it has. A frame whose key length (3) exceeds its total body length (0) is
not rejected: `handle` is called and calls `Cluster.Get` with the three bytes.
Only a wrong magic byte is rejected. In none of the panicking cases is a
request sent. -/
theorem parseRequest_unchecked (env : Backend) (ring : Ring) (heap : Heap) (w : List Sent)
    (spare : List Nat) :
    Router.parseRequest env ring heap w { arr := spare, len := 0 } =
      (w, .panicked .panicIndexOutOfRange) ∧
    Router.parseRequest env ring heap w { arr := [0x80, 0x00, 0x00] ++ spare, len := 3 } =
      (w, .panicked .panicIndexOutOfRange) ∧
    Router.parseRequest env ring heap w
        { arr := (Client.GetAsync 7 [107, 101, 121]).take 24 ++ spare, len := 24 } =
      (w, .panicked .panicIndexOutOfRange) ∧
    Router.parseRequest env ring heap w
        { arr := Client.setAsync 7 OpcodeSet [107] [118] 0 [] 60 ++ spare,
          len := (Client.setAsync 7 OpcodeSet [107] [118] 0 [] 60).length } =
      (w, .panicked .panicIndexOutOfRange) ∧
    (Router.parse
        (ByteSlice.ofBytes ((Client.setAsync 7 OpcodeSet [107] [118] 0 [0, 0, 0, 9] 60).take 33)) =
        .error .panicIndexOutOfRange ∧
      Router.parse
          { arr := (Client.setAsync 7 OpcodeSet [107] [118] 0 [0, 0, 0, 9] 60).take 33 ++ [0],
            len := 33 } =
        .ok (some { opcode := 1, key := [107], value := [], cas := 0,
                    extra := [0, 0, 0, 9, 0, 0, 0, 60], tag := 7 })) ∧
    (Router.parse
        { arr :=
            [0x80, 0, 0, 3, 0, 0, 0, 0, 0, 0, 0, 0, 0, 0, 0, 7, 0, 0, 0, 0, 0, 0, 0, 0, 107, 101,
             121] ++ spare,
          len := 27 } =
        .ok (some { opcode := 0, key := [107, 101, 121], value := [], cas := 0, extra := [],
                    tag := 7 }) ∧
      Router.route 0 [107, 101, 121] [] 0 [] = .ok (some (.Get [107, 101, 121]))) ∧
    Router.parseRequest env ring heap w { arr := responseFrame 0 7 [] [] [] ++ spare, len := 24 } =
      (w, .silent) := by
  have h1 : Router.parse { arr := spare, len := 0 } = .error .panicIndexOutOfRange := by
    simp [Router.parse, ByteSlice.index, bind, Except.bind]
  have h2 : Router.parse { arr := [0x80, 0x00, 0x00] ++ spare, len := 3 } =
      .error .panicIndexOutOfRange := by
    by_cases h : 1 ≤ spare.length <;>
      simp [Router.parse, ByteSlice.index, ByteSlice.slice, bind, Except.bind, MagicRequest, pure,
        Except.pure, h]
  have hhdr : (Client.GetAsync 7 [107, 101, 121]).take 24 =
      [128, 0, 0, 3, 0, 0, 0, 0, 0, 0, 0, 3, 0, 0, 0, 7, 0, 0, 0, 0, 0, 0, 0, 0] := by decide
  have h3 : Router.parse
      { arr := (Client.GetAsync 7 [107, 101, 121]).take 24 ++ spare, len := 24 } =
      .error .panicIndexOutOfRange := by
    rw [hhdr]
    by_cases h : 3 ≤ spare.length <;>
      simp [Router.parse, ByteSlice.index, ByteSlice.slice, ByteSlice.sliceFrom,
        ByteSlice.sliceTo, ByteSlice.bytes, bind, Except.bind, MagicRequest, pure, Except.pure, h,
        Uint16, Uint32, Uint64, bigEndian]
  have h4 := parse_with_spare (Client.setAsync 7 OpcodeSet [107] [118] 0 [] 60) spare
    (some { opcode := 1, key := [107], value := [], cas := 0, extra := [0, 0, 0, 60], tag := 7 })
    (by decide)
  have h4' : Router.route 1 [107] [] 0 [0, 0, 0, 60] = .error .panicIndexOutOfRange := by decide
  have h5 := parse_with_spare
    [0x80, 0, 0, 3, 0, 0, 0, 0, 0, 0, 0, 0, 0, 0, 0, 7, 0, 0, 0, 0, 0, 0, 0, 0, 107, 101, 121]
    spare
    (some { opcode := 0, key := [107, 101, 121], value := [], cas := 0, extra := [], tag := 7 })
    (by decide)
  have hresp : responseFrame 0 7 [] [] [] =
      [129, 0, 0, 0, 0, 0, 0, 0, 0, 0, 0, 0, 0, 0, 0, 7, 0, 0, 0, 0, 0, 0, 0, 0] := by decide
  have h6 : Router.parse { arr := responseFrame 0 7 [] [] [] ++ spare, len := 24 } = .ok none := by
    rw [hresp]
    simp [Router.parse, ByteSlice.index, bind, Except.bind, MagicRequest, pure, Except.pure]
  refine ⟨?_, ?_, ?_, ?_, ⟨by decide, by decide⟩, ⟨h5, by decide⟩, ?_⟩
  · simp only [Router.parseRequest, h1]
  · simp only [Router.parseRequest, h2]
  · simp only [Router.parseRequest, h3]
  · simp only [Router.parseRequest, h4, Router.handle, h4']
  · simp only [Router.parseRequest, h6]

end Router
